import Mathlib

/-
Verification of the ARM64 assembly emulator (executor.cpp, parser.cpp,
registers.hpp, stack.hpp) against its natural-language specification.

The C++ sources are shallowly embedded: std::string becomes `List Char`,
uint64_t/uint32_t/uint8_t arithmetic becomes Nat arithmetic reduced modulo
2^64 / 2^32 / 2^8 at the points where the C++ types force a reduction,
std::array buffers become `List Nat`, and every throwing function returns
`Except`.  All definitions are executable.
-/

namespace ARM64Emu

abbrev Str := List Char

/-- 2^64, the modulus of C++ `uint64_t` (and of `size_t` on the 64-bit
platforms this emulator targets). -/
def W64 : Nat := 18446744073709551616

/-- 2^32, the modulus of C++ `uint32_t`. -/
def W32 : Nat := 4294967296

/-- `std::isspace` in the "C" locale: space, \t, \n, \v, \f, \r. -/
def cppIsSpace (c : Char) : Bool :=
  c = ' ' || c = '\t' || c = '\n' || c = '\x0b' || c = '\x0c' || c = '\r'

/-- `std::isdigit`. -/
def cppIsDigit (c : Char) : Bool := '0' ≤ c && c ≤ '9'

/-- `std::isxdigit`. -/
def cppIsXdigit (c : Char) : Bool :=
  cppIsDigit c || ('a' ≤ c && c ≤ 'f') || ('A' ≤ c && c ≤ 'F')

/-- `std::toupper` on ASCII input (the only characters the emulator feeds it). -/
def cppToUpper (c : Char) : Char :=
  if 'a' ≤ c && c ≤ 'z' then Char.ofNat (c.toNat - 32) else c

/-- `trimCopy` of executor.cpp (identical to `trim` of parser.cpp): strip
leading and trailing whitespace. -/
def trimCopy (s : Str) : Str :=
  ((s.dropWhile cppIsSpace).reverse.dropWhile cppIsSpace).reverse

/-- `upperCopy` of executor.cpp (identical to `upper` of parser.cpp). -/
def upperCopy (s : Str) : Str := s.map cppToUpper

/-- Value of a decimal digit string (most significant first). -/
def decVal (s : Str) : Nat := s.foldl (fun a c => 10 * a + (c.toNat - 48)) 0

/-- Value of one hexadecimal digit character. -/
def hexDigitVal (c : Char) : Nat :=
  if cppIsDigit c then c.toNat - 48
  else if 'a' ≤ c && c ≤ 'f' then c.toNat - 87
  else c.toNat - 55

/-- Value of a hexadecimal digit string (most significant first). -/
def hexVal (s : Str) : Nat := s.foldl (fun a c => 16 * a + hexDigitVal c) 0

/-- Errors of the embedded program.  Each constructor corresponds to one
`throw` site of the C++ sources; the spec's error kinds map onto them as
noted. -/
inductive EmuErr where
  | stoullInvalid   -- std::invalid_argument out of stoull (no digits)
  | stoullRange     -- std::out_of_range out of stoull (value ≥ 2^64)
  | stoiRange       -- std::out_of_range out of stoi in regIndex
  | invalidMemOperand -- "invalid memory operand" (spec: InvalidOperand)
  | invalidBase     -- "invalid base register in memory operand" (spec: InvalidOperand)
  | invalidIndex    -- "invalid index in memory operand" (spec: InvalidOperand)
  | badShift        -- "unsupported index shift" (spec: InvalidOperand)
  | missingShiftImm -- "missing shift immediate" (spec: InvalidOperand)
  | strOOB          -- "STR out of stack bounds" (spec: MemoryBoundsError)
  | ldrOOB          -- "LDR out of stack bounds" (spec: MemoryBoundsError)
  | strbOOB         -- "STRB out of stack bounds" (spec: MemoryBoundsError)
  | ldrbOOB         -- "LDRB out of stack bounds" (spec: MemoryBoundsError)
  | str32OOB        -- "STR (32) out of stack bounds" (spec: MemoryBoundsError)
  | ldr32OOB        -- "LDR (32) out of stack bounds" (spec: MemoryBoundsError)
  | stackRange      -- Stack::boundsCheck std::out_of_range (spec: MemoryBoundsError)
  | undefinedLabel  -- "undefined label" (spec: UndefinedLabelError)
  | invalidPC       -- "PC points to unknown address" (spec: InvalidPC)
  | invalidRegister -- "invalid register" in readSrc64 (spec: InvalidRegisterIndex)
  | invalidDest     -- "invalid dest register" in writeDest (spec: InvalidRegisterIndex)
  | immExpected     -- "immediate expected" in readImm64
  | movArity        -- "MOV expects 2 operands" (spec: ParseError family)
  | aluArity        -- "<op> expects 3 operands"
  | cmpForm         -- "CMP expects Rn, (Rm|#imm)"
  | ldrForm         -- "LDR/LDRB expects Rt, [base{,#off}]"
  | strForm         -- "STR/STRB expects Rt, [base{,#off}]"
  | bForm           -- "B expects a single label/address operand"
  | bcForm          -- "B.GT/B.LE expects a single label/address operand"
deriving DecidableEq, Repr

/-- The optional sign accepted by `strtoull`/`strtoll`: returns whether a
`-` was seen and the remainder. -/
def signSplit (s : Str) : Bool × Str :=
  match s with
  | '-' :: r => (true, r)
  | '+' :: r => (false, r)
  | r => (false, r)

/-- The `strtoul` base-16 prefix rule: `0x`/`0X` is consumed only when a hex
digit follows. -/
def hexDigitsPart (t : Str) : Str :=
  match t with
  | '0' :: 'x' :: c :: r => if cppIsXdigit c then c :: r else t
  | '0' :: 'X' :: c :: r => if cppIsXdigit c then c :: r else t
  | _ => t

/-- Range check and sign application of `std::stoull`: values above
`ULLONG_MAX` throw `out_of_range`, a leading '-' negates modulo 2^64. -/
def stoullOut (neg : Bool) (v : Nat) : Except EmuErr Nat :=
  if v ≥ W64 then .error .stoullRange
  else .ok (if neg then (W64 - v) % W64 else v)

/-- `std::stoull(s, nullptr, 10)` on an already-trimmed string, as used by
`parseImm`: optional sign, then the longest initial run of decimal digits;
`invalid_argument` when that run is empty. -/
def cppStoullDec (s : Str) : Except EmuErr Nat :=
  let p := signSplit s
  let digits := p.2.takeWhile cppIsDigit
  if digits = [] then .error .stoullInvalid
  else stoullOut p.1 (decVal digits)

/-- `std::stoull(s, nullptr, 16)` on an already-trimmed string. -/
def cppStoullHex (s : Str) : Except EmuErr Nat :=
  let p := signSplit s
  let digits := (hexDigitsPart p.2).takeWhile cppIsXdigit
  if digits = [] then .error .stoullInvalid
  else stoullOut p.1 (hexVal digits)

/-- Does the string start with `0x` or `0X`?  (`s.rfind("0x", 0) == 0`). -/
def hasHexMark (s : Str) : Bool :=
  match s with
  | '0' :: 'x' :: _ => true
  | '0' :: 'X' :: _ => true
  | _ => false

/-- Operand types of parser.hpp (`enum class OperandType`). -/
inductive OperandType where
  | Register | Immediate | Memory | Label
deriving DecidableEq, Repr

/-- `struct Operand` of parser.hpp: type tag, raw token text, and the decoded
immediate value (an `int64_t`, hence `Int`). -/
structure Operand where
  type : OperandType
  raw : Str
  imm : Int
deriving DecidableEq, Repr

instance : Inhabited Operand := ⟨⟨.Register, [], 0⟩⟩

/-- `struct DecodedInstruction` of parser.hpp. -/
structure DecodedInstruction where
  mnem : Str
  operands : List Operand
deriving DecidableEq, Repr

/-- `struct AsmInst` of executor.hpp: address, 1-based index, instruction. -/
structure AsmInst where
  addr : Nat
  instrIndex : Nat
  inst : DecodedInstruction
deriving DecidableEq, Repr

instance : Inhabited AsmInst := ⟨⟨0, 0, ⟨[], []⟩⟩⟩

/-- `struct AsmProgram` of executor.hpp.  The two `std::unordered_map`s are
embedded as association lists with insert-or-overwrite update. -/
structure AsmProgram where
  code : List AsmInst
  labels : List (Str × Nat)
  addr2idx : List (Nat × Nat)
deriving DecidableEq, Repr

/-- `map[k] = v` on an `unordered_map` embedded as an association list:
overwrite the value when the key is present, append otherwise. -/
def setAssoc {α : Type} [DecidableEq α] (m : List (α × Nat)) (k : α) (v : Nat) :
    List (α × Nat) :=
  if m.any (fun p => p.1 = k) then
    m.map (fun p => if p.1 = k then (k, v) else p)
  else m ++ [(k, v)]

/-- `map.find(k)` on the association-list embedding. -/
def lookupAssoc {α : Type} [DecidableEq α] (m : List (α × Nat)) (k : α) : Option Nat :=
  (m.find? (fun p => p.1 = k)).map (fun p => p.2)

/-- The processor-state flags as the executor manipulates them:
`stackSubFlags64`/`stackSubFlags32` assign `ps.N`, `ps.Z`, `ps.C`, `ps.V`, and
the `B.GT`/`B.LE` conditions read `ps.Z`, `ps.N`, `ps.V`.  Note that
`struct ProcessorState` as declared in registers.hpp (lines 30-34) holds only
`N` and `Z` with the comment "C and V flags are not implemented"; the embedded
state carries the four fields executor.cpp requires. -/
structure ProcessorState where
  N : Bool
  Z : Bool
  C : Bool
  V : Bool
deriving DecidableEq, Repr

/-- The mutable machine state handed to `step`: the `Registers` object
(31-entry `std::array<uint64_t, 31>`, SP, PC, flags) and the `Stack` object
(base address plus the 256-entry `std::array<uint8_t, 256>`). -/
structure MachState where
  x : List Nat
  sp : Nat
  pcReg : Nat
  ps : ProcessorState
  base : Nat
  mem : List Nat
deriving DecidableEq, Repr

/-- `Registers::readX` as used by the executor (`n` is always ≤ 30 or the
XZR sentinel 31 at the call sites; stored values are `uint64_t`). -/
def readXv (s : MachState) (n : Nat) : Nat :=
  if n = 31 then 0 else (s.x.getD n 0) % W64

/-- `Registers::writeX`: writes to XZR (index 31) are ignored. -/
def writeXv (s : MachState) (n : Nat) (v : Nat) : MachState :=
  if n = 31 then s else { s with x := s.x.set n (v % W64) }

/-- `Registers::writeW`: stores the low 32 bits zero-extended. -/
def writeWv (s : MachState) (n : Nat) (v : Nat) : MachState :=
  if n = 31 then s else { s with x := s.x.set n (v % W32) }

/-- `Registers::readSP`. -/
def readSPv (s : MachState) : Nat := s.sp % W64

/-- `Registers::writeSP`. -/
def writeSPv (s : MachState) (v : Nat) : MachState := { s with sp := v % W64 }

/-- `uint64_t` subtraction `a - b` (operands already reduced mod 2^64). -/
def sub64 (a b : Nat) : Nat := (a + (W64 - b % W64)) % W64

/-- `uint32_t` subtraction `a - b`. -/
def sub32 (a b : Nat) : Nat := (a + (W32 - b % W32)) % W32

/-- `stackSubFlags64` of executor.cpp: flags of a 64-bit CMP/SUB with
minuend `a`, subtrahend `b` and result `res`. -/
def stackSubFlags64 (a b res : Nat) : ProcessorState :=
  { N := (res >>> 63) &&& 1 != 0
    Z := res == 0
    C := a ≥ b
    V := let sa := (a >>> 63) &&& 1 != 0
         let sb := (b >>> 63) &&& 1 != 0
         let sr := (res >>> 63) &&& 1 != 0
         sa != sb && sr != sa }

/-- `stackSubFlags32` of executor.cpp. -/
def stackSubFlags32 (a b res : Nat) : ProcessorState :=
  { N := (res >>> 31) &&& 1 != 0
    Z := res == 0
    C := a ≥ b
    V := let sa := (a >>> 31) &&& 1 != 0
         let sb := (b >>> 31) &&& 1 != 0
         let sr := (res >>> 31) &&& 1 != 0
         sa != sb && sr != sa }

/-- `Stack::write8`: `boundsCheck(offset, 1)` (the `offset + width`
comparison is `size_t` arithmetic, hence the mod 2^64), then
`mem_[offset] = v` where `v` went through a `uint8_t` cast.  The C++
`mem_[offset]` with a passing check but `offset ≥ 256` (possible only via the
`size_t` wraparound at `offset = 2^64 - 1`) is an out-of-bounds array access,
i.e. undefined behavior; `List.set` embeds it as a no-op. -/
def stackW8 (mem : List Nat) (offset v : Nat) : Except EmuErr (List Nat) :=
  if (offset + 1) % W64 > 256 then .error .stackRange
  else .ok (mem.set offset (v % 256))

/-- `Stack::read8`; the same undefined-behavior corner reads the default 0. -/
def stackR8 (mem : List Nat) (offset : Nat) : Except EmuErr Nat :=
  if (offset + 1) % W64 > 256 then .error .stackRange
  else .ok (mem.getD offset 0 % 256)

/-- The byte loop of `stackWrite64`/`stackWrite32`:
`for i in [0, n): st.write8(o + i, (v >> (i*8)) & 0xFF)`.
`o + i` is `size_t` arithmetic.  On an error the partially updated buffer is
returned alongside it (the C++ `Stack` object keeps the bytes already
written when `write8` throws). -/
def storeBytesLE (o v : Nat) : Nat → Nat → List Nat → Except (EmuErr × List Nat) (List Nat)
  | _, 0, mem => .ok mem
  | i, n + 1, mem =>
    match stackW8 mem ((o + i) % W64) ((v >>> (i * 8)) &&& 255) with
    | .error e => .error (e, mem)
    | .ok mem2 => storeBytesLE o v (i + 1) n mem2

/-- The byte loop of `stackRead64`/`stackRead32`:
`for i in [0, n): v |= read8(o + i) << (i*8)`. -/
def loadBytesLE (o : Nat) : Nat → Nat → Nat → List Nat → Except EmuErr Nat
  | _, 0, acc, _ => .ok acc
  | i, n + 1, acc, mem =>
    match stackR8 mem ((o + i) % W64) with
    | .error e => .error e
    | .ok b => loadBytesLE o (i + 1) n (acc ||| (b <<< (i * 8))) mem

/-- The bounds test shared by the `stackWrite*`/`stackRead*` helpers of
executor.cpp: `addr < st.base() || addr + w > st.base() + st.size()`,
all in `uint64_t` arithmetic. -/
def stackWindowBad (base addr w : Nat) : Bool :=
  addr < base || (addr + w) % W64 > (base + 256) % W64

/-- `stackWrite64` of executor.cpp. -/
def stackWrite64 (base : Nat) (mem : List Nat) (addr v : Nat) :
    Except (EmuErr × List Nat) (List Nat) :=
  if stackWindowBad base addr 8 then .error (.strOOB, mem)
  else storeBytesLE (sub64 addr base) v 0 8 mem

/-- `stackRead64` of executor.cpp. -/
def stackRead64 (base : Nat) (mem : List Nat) (addr : Nat) : Except EmuErr Nat :=
  if stackWindowBad base addr 8 then .error .ldrOOB
  else loadBytesLE (sub64 addr base) 0 8 0 mem

/-- `stackWrite32` of executor.cpp. -/
def stackWrite32 (base : Nat) (mem : List Nat) (addr v : Nat) :
    Except (EmuErr × List Nat) (List Nat) :=
  if stackWindowBad base addr 4 then .error (.str32OOB, mem)
  else storeBytesLE (sub64 addr base) v 0 4 mem

/-- `stackRead32` of executor.cpp. -/
def stackRead32 (base : Nat) (mem : List Nat) (addr : Nat) : Except EmuErr Nat :=
  if stackWindowBad base addr 4 then .error .ldr32OOB
  else loadBytesLE (sub64 addr base) 0 4 0 mem

/-- `stackWrite8` of executor.cpp (`v` goes through `& 0xFF` and the
`uint8_t` parameter cast). -/
def stackWrite8 (base : Nat) (mem : List Nat) (addr v : Nat) :
    Except (EmuErr × List Nat) (List Nat) :=
  if stackWindowBad base addr 1 then .error (.strbOOB, mem)
  else
    match stackW8 mem (sub64 addr base) (v &&& 255) with
    | .error e => .error (e, mem)
    | .ok mem2 => .ok mem2

/-- `stackRead8` of executor.cpp. -/
def stackRead8 (base : Nat) (mem : List Nat) (addr : Nat) : Except EmuErr Nat :=
  if stackWindowBad base addr 1 then .error .ldrbOOB
  else stackR8 mem (sub64 addr base)

/-- `regIndex` of executor.cpp.  Returns 31 for XZR/WZR (`XZR_INDEX`), 32 for
SP (`XZR_INDEX + 1`), the register number for `X0..X30`/`W0..W30`, and 999
otherwise.  `std::stoi` on a digit run whose value exceeds `INT_MAX` throws
`std::out_of_range`.  On an empty string `u[0]` is the guaranteed null
character, so neither register branch fires. -/
def regIndex (tok : Str) : Except EmuErr Nat :=
  let u := upperCopy (trimCopy tok)
  if u = ['X', 'Z', 'R'] || u = ['W', 'Z', 'R'] then .ok 31
  else if u = ['S', 'P'] then .ok 32
  else
    match u with
    | c :: rest =>
      if (c = 'X' || c = 'W') && rest.length ≥ 1 then
        if rest.all cppIsDigit then
          if decVal rest > 2147483647 then .error .stoiRange
          else if decVal rest ≤ 30 then .ok (decVal rest)
          else .ok 999
        else .ok 999
      else .ok 999
    | [] => .ok 999

/-- `isWReg` of executor.cpp: first character is `W`. -/
def isWReg (tokU : Str) : Bool :=
  match tokU with
  | c :: _ => c = 'W'
  | [] => false

/-- `parseImm` of executor.cpp: trim, drop one leading `#`, then
`std::stoull` in base 16 for a `0x`/`0X` prefix and base 10 otherwise. -/
def parseImm (s0 : Str) : Except EmuErr Nat :=
  let s1 := trimCopy s0
  let s := match s1 with
           | '#' :: r => r
           | r => r
  if hasHexMark s then cppStoullHex s else cppStoullDec s

/-- Split a string at the first occurrence of `c` (`s.find(c)`):
`none` when absent, otherwise the parts before and after it. -/
def splitFirst (c : Char) : Str → Option (Str × Str)
  | [] => none
  | d :: r =>
    if d = c then some ([], r)
    else match splitFirst c r with
         | none => none
         | some (l, t) => some (d :: l, t)

/-- The offset computation of `effectiveAddr` (executor.cpp lines 115-144):
given the index token and the (uppercased) shift token, compute `idx_val`.
An immediate-looking token (leading `#` or digit) goes through `parseImm`;
otherwise it is a register (zero-extended when 32-bit), optionally scaled by
an explicit `LSL #imm` (`idx_val <<= (sh & 63)` is uint64_t arithmetic). -/
def effAddrIdxVal (idxTok shiftTok : Str) (s : MachState) : Except EmuErr Nat :=
  let idxIsImm : Bool :=
    match idxTok with
    | c :: _ => c = '#' || cppIsDigit c
    | [] => false
  if idxIsImm then parseImm idxTok
  else
    match regIndex (upperCopy idxTok) with
    | .error e => .error e
    | .ok r =>
      if r = 999 then .error .invalidIndex
      else
        let idxVal0 :=
          if r = 31 then 0
          else if isWReg (upperCopy idxTok) then readXv s r % W32
          else readXv s r
        if shiftTok = [] then .ok idxVal0
        else if ¬ (shiftTok.take 3 = ['L', 'S', 'L']) then .error .badShift
        else
          match splitFirst '#' shiftTok with
          | none => .error .missingShiftImm
          | some (_, afterHash) =>
            match parseImm ('#' :: afterHash) with
            | .error e => .error e
            | .ok sh => .ok ((idxVal0 <<< (sh &&& 63)) % W64)

/-- `base_val + idx_val` of `effectiveAddr` (uint64_t addition), after
splitting the post-base remainder into index and shift tokens at the second
comma (executor.cpp lines 107-113, 146). -/
def effAddrOffset (baseVal : Nat) (rest : Str) (s : MachState) : Except EmuErr Nat :=
  match (match splitFirst ',' rest with
         | none => (rest, ([] : Str))
         | some (l, r) => (trimCopy l, upperCopy (trimCopy r))) with
  | (idxTok, shiftTok) =>
    match effAddrIdxVal idxTok shiftTok s with
    | .error e => .error e
    | .ok idxVal => .ok ((baseVal + idxVal) % W64)

/-- The base-register resolution of `effectiveAddr` (executor.cpp lines
88-105): XZR contributes 0, SP reads the stack pointer, a general register
reads its 64-bit value; then the optional offset is added. -/
def effAddrFrom (base rest : Str) (s : MachState) : Except EmuErr Nat :=
  match regIndex (upperCopy base) with
  | .error e => .error e
  | .ok b =>
    match (if b = 31 then .ok 0
           else if b = 32 then .ok (readSPv s)
           else if b ≠ 999 then .ok (readXv s b)
           else .error .invalidBase : Except EmuErr Nat) with
    | .error e => .error e
    | .ok baseVal =>
      if rest = [] then .ok baseVal
      else effAddrOffset baseVal rest s

/-- The interior split of `effectiveAddr` (executor.cpp lines 79-86): the
bracket interior is split at its first comma into base and rest. -/
def effAddrInside (inside : Str) (s : MachState) : Except EmuErr Nat :=
  match splitFirst ',' inside with
  | none => effAddrFrom inside [] s
  | some (l, r) => effAddrFrom (trimCopy l) (trimCopy r) s

/-- `effectiveAddr` of executor.cpp: parse a `[base{, offset{, LSL #imm}}]`
memory-operand string and compute the address. -/
def effectiveAddr (op : Operand) (s : MachState) : Except EmuErr Nat :=
  if op.raw.length < 2 ∨ op.raw.head? ≠ some '[' ∨ op.raw.getLast? ≠ some ']' then
    .error .invalidMemOperand
  else effAddrInside (trimCopy ((op.raw.drop 1).dropLast)) s

/-- `tryParseHexAddrLabelish` of executor.cpp: trim, cut at the first space
or `<`, trim again; accept a `0x`-prefixed hex number (when longer than two
characters) or a bare string of hex digits; any `std::stoull` exception makes
it fail. -/
def tryParseHexAddrLabelish (labelish : Str) : Option Nat :=
  let t0 := trimCopy labelish
  let t1 := t0.takeWhile (fun c => c ≠ ' ' && c ≠ '<')
  let t := trimCopy t1
  if t = [] then none
  else if t.length > 2 && hasHexMark t then (cppStoullHex t).toOption
  else if t.all cppIsXdigit then (cppStoullHex t).toOption
  else none

/-- `resolveBranchTarget` of executor.cpp: a hex address token wins,
otherwise a case-insensitive label lookup, otherwise "undefined label". -/
def resolveBranchTarget (prog : AsmProgram) (opText : Str) : Except EmuErr Nat :=
  match tryParseHexAddrLabelish opText with
  | some addr => .ok addr
  | none =>
    match lookupAssoc prog.labels (upperCopy (trimCopy opText)) with
    | some a => .ok (a % W64)  -- the map's mapped type is uint64_t
    | none => .error .undefinedLabel

/-- `i < ops.size() && ops[i].type == T` (the `isImm`/`isReg`/`isMem`
lambdas of `step`). -/
def opTypeAt (ops : List Operand) (i : Nat) (ty : OperandType) : Bool :=
  match ops.get? i with
  | some o => o.type == ty
  | none => false

/-- The `regU` lambda of `step`: uppercased raw text of operand `i`
(`ops.at(i)` is only reached after an arity check, so `getD` is safe). -/
def regU (ops : List Operand) (i : Nat) : Str :=
  upperCopy (ops.getD i default).raw

/-- The `readSrc64` lambda of `step`. -/
def readSrc64 (ops : List Operand) (s : MachState) (i : Nat) : Except EmuErr Nat :=
  let u := regU ops i
  match regIndex u with
  | .error e => .error e
  | .ok r =>
    if r = 31 then .ok 0
    else if r = 32 then .ok (readSPv s)
    else if r = 999 then .error .invalidRegister
    else if isWReg u then .ok (readXv s r % W32)
    else .ok (readXv s r)

/-- The `writeDest` lambda of `step`: writes to XZR/WZR are ignored, SP gets
`writeSP`, a `W` destination zero-extends. -/
def writeDest (ops : List Operand) (s : MachState) (i : Nat) (v : Nat) :
    Except EmuErr MachState :=
  let u := regU ops i
  match regIndex u with
  | .error e => .error e
  | .ok r =>
    if r = 31 then .ok s
    else if r = 32 then .ok (writeSPv s v)
    else if r = 999 then .error .invalidDest
    else if isWReg u then .ok (writeWv s r v)
    else .ok (writeXv s r v)

/-- The `readImm64` lambda of `step`: `static_cast<uint64_t>(ops[i].imm)`. -/
def readImm64 (ops : List Operand) (i : Nat) : Except EmuErr Nat :=
  if ¬ opTypeAt ops i .Immediate then .error .immExpected
  else .ok ((ops.getD i default).imm % (W64 : Int)).toNat

/-- Outcome of executing one instruction body: `halt` is RET's immediate
`return false` (no PC write), `next` carries the mutated state and the next
PC for the shared `pc = nextPC; regs.writePC(pc); return pc != endAddr`
tail of `step`. -/
inductive ExecOut where
  | halt
  | next (s : MachState) (nextPC : Nat)
deriving DecidableEq, Repr

/-- The MOV branch of `step` (executor.cpp lines 326-330). -/
def execMovI (ops : List Operand) (s : MachState) : Except EmuErr MachState :=
  if ops.length ≠ 2 then .error .movArity
  else
    match (if opTypeAt ops 1 .Immediate then readImm64 ops 1 else readSrc64 ops s 1) with
    | .error e => .error e
    | .ok v => writeDest ops s 0 v

/-- The ADD/SUB/AND/EOR/MUL branch of `step` (executor.cpp lines 331-343);
`up` is the uppercased mnemonic selecting the operation. -/
def execAluI (up : Str) (ops : List Operand) (s : MachState) : Except EmuErr MachState :=
  if ops.length ≠ 3 then .error .aluArity
  else
    match readSrc64 ops s 1 with
    | .error e => .error e
    | .ok a =>
      match (if opTypeAt ops 2 .Immediate then readImm64 ops 2 else readSrc64 ops s 2) with
      | .error e => .error e
      | .ok b =>
        let res :=
          if up = "ADD".toList then (a + b) % W64
          else if up = "SUB".toList then sub64 a b
          else if up = "AND".toList then a &&& b
          else if up = "EOR".toList then a ^^^ b
          else (a * b) % W64  -- MUL (low 64)
        writeDest ops s 0 res

/-- The CMP branch of `step` (executor.cpp lines 344-360). -/
def execCmpI (ops : List Operand) (s : MachState) : Except EmuErr MachState :=
  if ops.length ≠ 2 ∨ opTypeAt ops 0 .Register = false then .error .cmpForm
  else
    let rnU := regU ops 0
    match readSrc64 ops s 0 with
    | .error e => .error e
    | .ok a =>
      match (if opTypeAt ops 1 .Immediate then readImm64 ops 1 else readSrc64 ops s 1) with
      | .error e => .error e
      | .ok b =>
        if isWReg rnU then
          let aa := a % W32
          let bb := b % W32
          let rr := sub32 aa bb
          .ok { s with ps := stackSubFlags32 aa bb rr }
        else
          let rr := sub64 a b
          .ok { s with ps := stackSubFlags64 a b rr }

/-- The LDR/LDRB branch of `step` (executor.cpp lines 361-382). -/
def execLoadI (up : Str) (ops : List Operand) (s : MachState) : Except EmuErr MachState :=
  if ops.length ≠ 2 ∨ opTypeAt ops 0 .Register = false ∨ opTypeAt ops 1 .Memory = false then
    .error .ldrForm
  else
    match effectiveAddr (ops.getD 1 default) s with
    | .error e => .error e
    | .ok ea =>
      if up = "LDRB".toList then
        match stackRead8 s.base s.mem ea with
        | .error e => .error e
        | .ok b =>
          -- the uint32_t / uint64_t casts of the byte are value-preserving
          writeDest ops s 0 b
      else
        let rtU := regU ops 0
        if isWReg rtU then
          match stackRead32 s.base s.mem ea with
          | .error e => .error e
          | .ok w => writeDest ops s 0 w  -- zero-extend
        else
          match stackRead64 s.base s.mem ea with
          | .error e => .error e
          | .ok v => writeDest ops s 0 v

/-- The STR/STRB branch of `step` (executor.cpp lines 383-402).  A failing
store returns the state as mutated up to the throw. -/
def execStoreI (up : Str) (ops : List Operand) (s : MachState) :
    Except (EmuErr × MachState) MachState :=
  if ops.length ≠ 2 ∨ opTypeAt ops 0 .Register = false ∨ opTypeAt ops 1 .Memory = false then
    .error (.strForm, s)
  else
    match effectiveAddr (ops.getD 1 default) s with
    | .error e => .error (e, s)
    | .ok ea =>
      let rtU := regU ops 0
      if up = "STRB".toList then
        match readSrc64 ops s 0 with
        | .error e => .error (e, s)
        | .ok v =>
          match stackWrite8 s.base s.mem ea v with
          | .error (e, memP) => .error (e, { s with mem := memP })
          | .ok mem2 => .ok { s with mem := mem2 }
      else if isWReg rtU then
        match readSrc64 ops s 0 with
        | .error e => .error (e, s)
        | .ok v =>
          match stackWrite32 s.base s.mem ea (v % W32) with
          | .error (e, memP) => .error (e, { s with mem := memP })
          | .ok mem2 => .ok { s with mem := mem2 }
      else
        match readSrc64 ops s 0 with
        | .error e => .error (e, s)
        | .ok v =>
          match stackWrite64 s.base s.mem ea v with
          | .error (e, memP) => .error (e, { s with mem := memP })
          | .ok mem2 => .ok { s with mem := mem2 }

/-- The B branch of `step` (executor.cpp lines 403-407). -/
def execBI (prog : AsmProgram) (ops : List Operand) (s : MachState) :
    Except EmuErr Nat :=
  if ops.length ≠ 1 ∨ (ops.getD 0 default).type ≠ .Label then .error .bForm
  else resolveBranchTarget prog (ops.getD 0 default).raw

/-- The B.GT / B.LE branch of `step` (executor.cpp lines 408-415): `isGT`
selects the condition; the result is the next PC (the branch target when
taken, `nextPC` otherwise). -/
def execBCondI (prog : AsmProgram) (isGT : Bool) (ops : List Operand)
    (s : MachState) (nextPC : Nat) : Except EmuErr Nat :=
  if ops.length ≠ 1 ∨ (ops.getD 0 default).type ≠ .Label then .error .bcForm
  else
    let take :=
      if isGT then !s.ps.Z && (s.ps.N == s.ps.V)
      else s.ps.Z || (s.ps.N != s.ps.V)
    if take then resolveBranchTarget prog (ops.getD 0 default).raw
    else .ok nextPC

/-- Which branch of the `step` mnemonic-comparison chain fires. -/
inductive Mnemonic where
  | nop | mov | alu | cmp | load | store | b | bgt | ble | ret | other
deriving DecidableEq, Repr

/-- The `==`-comparison chain of `step` (executor.cpp lines 325-422) on the
uppercased mnemonic, in source order; every unmatched string falls through
to `other`. -/
def decodeMnem (up : Str) : Mnemonic :=
  if up = ['N', 'O', 'P'] then .nop
  else if up = ['M', 'O', 'V'] then .mov
  else if up = ['A', 'D', 'D'] ∨ up = ['S', 'U', 'B'] ∨ up = ['A', 'N', 'D']
       ∨ up = ['E', 'O', 'R'] ∨ up = ['M', 'U', 'L'] then .alu
  else if up = ['C', 'M', 'P'] then .cmp
  else if up = ['L', 'D', 'R'] ∨ up = ['L', 'D', 'R', 'B'] then .load
  else if up = ['S', 'T', 'R'] ∨ up = ['S', 'T', 'R', 'B'] then .store
  else if up = ['B'] then .b
  else if up = ['B', '.', 'G', 'T'] then .bgt
  else if up = ['B', '.', 'L', 'E'] then .ble
  else if up = ['R', 'E', 'T'] then .ret
  else .other

/-- The instruction-dispatch body of `step` (executor.cpp lines 288-422).
Errors carry the machine state at the moment of the throw: everything the
C++ mutated in place before throwing (only the stack-write loops can have
done so) is retained. -/
def execInst (prog : AsmProgram) (ai : AsmInst) (s : MachState) (pc : Nat) :
    Except (EmuErr × MachState) ExecOut :=
  match decodeMnem (upperCopy ai.inst.mnem) with
  | .nop => .ok (.next s ((pc + 4) % W64))
  | .mov =>
    match execMovI ai.inst.operands s with
    | .error e => .error (e, s)
    | .ok s2 => .ok (.next s2 ((pc + 4) % W64))
  | .alu =>
    match execAluI (upperCopy ai.inst.mnem) ai.inst.operands s with
    | .error e => .error (e, s)
    | .ok s2 => .ok (.next s2 ((pc + 4) % W64))
  | .cmp =>
    match execCmpI ai.inst.operands s with
    | .error e => .error (e, s)
    | .ok s2 => .ok (.next s2 ((pc + 4) % W64))
  | .load =>
    match execLoadI (upperCopy ai.inst.mnem) ai.inst.operands s with
    | .error e => .error (e, s)
    | .ok s2 => .ok (.next s2 ((pc + 4) % W64))
  | .store =>
    match execStoreI (upperCopy ai.inst.mnem) ai.inst.operands s with
    | .error es => .error es
    | .ok s2 => .ok (.next s2 ((pc + 4) % W64))
  | .b =>
    match execBI prog ai.inst.operands s with
    | .error e => .error (e, s)
    | .ok tgt => .ok (.next s tgt)
  | .bgt =>
    match execBCondI prog true ai.inst.operands s ((pc + 4) % W64) with
    | .error e => .error (e, s)
    | .ok tgt => .ok (.next s tgt)
  | .ble =>
    match execBCondI prog false ai.inst.operands s ((pc + 4) % W64) with
    | .error e => .error (e, s)
    | .ok tgt => .ok (.next s tgt)
  | .ret => .ok .halt
  | .other => .ok (.next s ((pc + 4) % W64))  -- unimplemented mnemonic: treat as NOP

/-- Result of one `step` call: the returned bool, the machine state, and the
by-reference `pc` argument's final value (unchanged when an exception
propagates or when RET / the sentinel / the empty program return early). -/
inductive StepOut where
  | ok (cont : Bool) (s : MachState) (pc : Nat)
  | err (e : EmuErr) (s : MachState) (pc : Nat)
deriving DecidableEq, Repr

/-- `regs.writePC` composed with the `pc = nextPC` assignment. -/
def setPC (s : MachState) (np : Nat) : MachState := { s with pcReg := np % W64 }

/-- `step` of executor.cpp. -/
def step (prog : AsmProgram) (s : MachState) (pc : Nat) : StepOut :=
  if prog.code = [] then .ok false s pc
  else
    let endAddr := (prog.code.length * 4) % W64
    if pc = endAddr then .ok false s pc
    else
      match lookupAssoc prog.addr2idx pc with
      | none => .err .invalidPC s pc
      | some idx =>
        match execInst prog (prog.code.getD idx default) s pc with
        | .error (e, s2) => .err e s2 pc
        | .ok .halt => .ok false s pc
        | .ok (.next s2 np) => .ok (np != endAddr) (setPC s2 np) np

/-- Parse errors of parser.cpp (each constructor is one `throw` site; the
spec calls this family `ParseError`). -/
inductive ParseErr where
  | stollInvalid  -- std::invalid_argument out of stoll
  | stollRange    -- std::out_of_range out of stoll
  | addArity      -- "ADD expects 3 operands"
  | addRegs       -- "ADD first two operands must be registers"
  | addThird      -- "ADD third operand must be register or immediate"
  | ldrArity      -- "LDR expects 2 operands"
  | ldrDest       -- "LDR destination must be a register"
  | ldrMem        -- "LDR address must be a memory operand like [Xn{,#imm}]"
deriving DecidableEq, Repr

/-- Range check and sign application of `std::stoll`: the range is
`long long` (`[-2^63, 2^63 - 1]`). -/
def stollOut (neg : Bool) (v : Nat) : Except ParseErr Int :=
  let sv : Int := if neg then -(v : Int) else (v : Int)
  if sv < -(2 ^ 63 : Int) ∨ sv > (2 ^ 63 - 1 : Int) then .error .stollRange
  else .ok sv

/-- `std::stoll(v, nullptr, 10)`. -/
def cppStollDec (s : Str) : Except ParseErr Int :=
  let p := signSplit s
  let digits := p.2.takeWhile cppIsDigit
  if digits = [] then .error .stollInvalid
  else stollOut p.1 (decVal digits)

/-- `std::stoll(v, nullptr, 16)` with the `strtoll` prefix rule. -/
def cppStollHex (s : Str) : Except ParseErr Int :=
  let p := signSplit s
  let digits := (hexDigitsPart p.2).takeWhile cppIsXdigit
  if digits = [] then .error .stollInvalid
  else stollOut p.1 (hexVal digits)

/-- `is_register_token` of parser.cpp: SP, XZR, WZR, or `X`/`W` followed by
one or more decimal digits (any count — `X99` passes here and only fails
later in the executor's `regIndex`). -/
def isRegisterToken (t : Str) : Bool :=
  match t with
  | [] => false
  | _ =>
    let u := upperCopy t
    if u = "SP".toList || u = "XZR".toList || u = "WZR".toList then true
    else
      match u with
      | c :: rest => (c = 'X' || c = 'W') && rest.length ≥ 1 && rest.all cppIsDigit
      | [] => false

/-- `is_immediate_token` of parser.cpp. -/
def isImmediateToken (t : Str) : Bool :=
  match t with
  | c :: _ => c = '#'
  | [] => false

/-- `is_memory_token` of parser.cpp. -/
def isMemoryToken (t : Str) : Bool :=
  match t with
  | [] => false
  | _ => t.head? = some '[' && t.getLast? = some ']'

/-- `parse_immediate_value` of parser.cpp: drop the `#`, then signed
`std::stoll` (hex for a `0x`/`0X` prefix). -/
def parseImmediateValue (t : Str) : Except ParseErr Int :=
  let v := t.drop 1
  if hasHexMark v then cppStollHex v else cppStollDec v

/-- `parse_operand` of parser.cpp.  An empty (post-trim) token yields the
value-initialized `Operand{}`, whose `OperandType{}` is the first enumerator
`Register`. -/
def parseOperand (tok0 : Str) : Except ParseErr Operand :=
  let tok := trimCopy tok0
  if tok = [] then .ok default
  else if isMemoryToken tok then .ok ⟨.Memory, tok, 0⟩
  else if isRegisterToken tok then .ok ⟨.Register, tok, 0⟩
  else if isImmediateToken tok then
    match parseImmediateValue tok with
    | .error e => .error e
    | .ok v => .ok ⟨.Immediate, tok, v⟩
  else .ok ⟨.Label, tok, 0⟩

/-- The scanning loop of `parse_operands`: split on commas at bracket depth
zero, keeping every intermediate chunk and the final one only when its trim
is nonempty. -/
def splitOperandChunks : Str → Nat → Str → List Str
  | [], _, cur => if trimCopy cur.reverse = [] then [] else [cur.reverse]
  | c :: rest, bracket, cur =>
    let bracket1 := if c = '[' then bracket + 1 else bracket
    let bracket2 := if c = ']' then bracket1 - 1 else bracket1
    if c = ',' && bracket2 = 0 then
      cur.reverse :: splitOperandChunks rest bracket2 []
    else
      splitOperandChunks rest bracket2 (c :: cur)

/-- `parse_operands` of parser.cpp. -/
def parseOperands (s : Str) : Except ParseErr (List Operand) :=
  (splitOperandChunks s 0 []).mapM parseOperand

/-- `AddHandler::parse` of parser.cpp. -/
def addHandler (mnem : Str) (ops : List Operand) : Except ParseErr DecodedInstruction :=
  if ops.length ≠ 3 then .error .addArity
  else if (ops.getD 0 default).type ≠ .Register || (ops.getD 1 default).type ≠ .Register then
    .error .addRegs
  else if (ops.getD 2 default).type ≠ .Register && (ops.getD 2 default).type ≠ .Immediate then
    .error .addThird
  else .ok ⟨upperCopy mnem, ops⟩

/-- `LdrHandler::parse` of parser.cpp. -/
def ldrHandler (mnem : Str) (ops : List Operand) : Except ParseErr DecodedInstruction :=
  if ops.length < 2 || ops.length > 2 then .error .ldrArity
  else if (ops.getD 0 default).type ≠ .Register then .error .ldrDest
  else if (ops.getD 1 default).type ≠ .Memory then .error .ldrMem
  else .ok ⟨upperCopy mnem, ops⟩

/-- Does the line open a comment (`//` at position 0, or `;`)? -/
def isCommentLine (s : Str) : Bool :=
  s.take 2 = "//".toList ||
  (match s with
   | c :: _ => c = ';'
   | [] => false)

/-- `Parser::parseLine` of parser.cpp: trim, skip blanks and comments,
split off the mnemonic at the first whitespace, parse the operand list and
dispatch to the mnemonic's handler (ADD and LDR are strict, everything else
is the permissive `GenericHandler`). -/
def parseLine (line : Str) : Except ParseErr (Option DecodedInstruction) :=
  let s := trimCopy line
  if s = [] then .ok none
  else if isCommentLine s then .ok none
  else
    let mnem := s.takeWhile (fun c => ¬ cppIsSpace c)
    let rest := trimCopy (s.dropWhile (fun c => ¬ cppIsSpace c))
    if mnem = [] then .ok none
    else
      match (if rest = [] then .ok [] else parseOperands rest : Except ParseErr (List Operand)) with
      | .error e => .error e
      | .ok ops =>
        let up := upperCopy mnem
        if up = "ADD".toList then
          match addHandler mnem ops with
          | .error e => .error e
          | .ok d => .ok (some d)
        else if up = "LDR".toList then
          match ldrHandler mnem ops with
          | .error e => .error e
          | .ok d => .ok (some d)
        else .ok (some ⟨upperCopy mnem, ops⟩)

/-- The `while (true)` label loop of `collectLeadingLabels`, with explicit
fuel (each iteration strictly shrinks the string, so `s.length + 1` fuel is
always enough; see `collectGo_fuel_irrelevant`). -/
def collectGo (fuel : Nat) (s : Str) (addr : Nat) (out : List (Str × Nat)) :
    List (Str × Nat) × Str :=
  match fuel with
  | 0 => (out, s)
  | fuel + 1 =>
    match splitFirst ':' s with
    | none => (out, s)
    | some (l, r) =>
      let left := trimCopy l
      let right := trimCopy r
      if left = [] then (out, s)
      else if left.any (fun c => c = ' ' || c = '\t') then (out, s)
      else
        let out2 := setAssoc out (upperCopy left) addr
        if right = [] then (out2, right)
        else collectGo fuel right addr out2

/-- `collectLeadingLabels` of executor.cpp: strip leading `label:` prefixes
(bare tokens without internal space/tab), recording each under its
uppercased name at `next_instr_addr`; return the residue. -/
def collectLeadingLabels (line : Str) (addr : Nat) (out : List (Str × Nat)) :
    List (Str × Nat) × Str :=
  let s := trimCopy line
  collectGo (s.length + 1) s addr out

/-- The sequence of label names that `collectGo` inserts from one line: the
same control flow as `collectGo`, with the accumulator and the address
dropped.  Used to state which labels a source line contributes. -/
def collectKeysGo (fuel : Nat) (s : Str) : List Str :=
  match fuel with
  | 0 => []
  | fuel + 1 =>
    match splitFirst ':' s with
    | none => []
    | some (l, r) =>
      let left := trimCopy l
      let right := trimCopy r
      if left = [] then []
      else if left.any (fun c => c = ' ' || c = '\t') then []
      else if right = [] then [upperCopy left]
      else upperCopy left :: collectKeysGo fuel right

/-- The uppercased label names stripped from a line by
`collectLeadingLabels`. -/
def lineLabels (line : Str) : List Str :=
  collectKeysGo ((trimCopy line).length + 1) (trimCopy line)

/-- The loop state of `buildFileProgram`: collected labels, emitted code,
address map, and the `instrIndex` counter. -/
structure BuildSt where
  labels : List (Str × Nat)
  code : List AsmInst
  addr2idx : List (Nat × Nat)
  instrIndex : Nat
deriving DecidableEq, Repr

/-- One iteration of the `buildFileProgram` line loop. -/
def buildStep (st : BuildSt) (line : Str) : Except ParseErr BuildSt :=
  let nextAddr := (st.instrIndex * 4) % W64
  let (labels2, rest) := collectLeadingLabels line nextAddr st.labels
  let s := trimCopy rest
  if s = [] then .ok { st with labels := labels2 }
  else if isCommentLine s then .ok { st with labels := labels2 }
  else
    match parseLine s with
    | .error e => .error e
    | .ok none => .ok { st with labels := labels2 }
    | .ok (some d) =>
      .ok { labels := labels2
            code := st.code ++ [⟨nextAddr, st.instrIndex + 1, d⟩]
            addr2idx := setAssoc st.addr2idx nextAddr st.code.length
            instrIndex := st.instrIndex + 1 }

/-- Fold of `buildStep` over the source lines. -/
def buildGo (st : BuildSt) : List Str → Except ParseErr BuildSt
  | [] => .ok st
  | l :: ls =>
    match buildStep st l with
    | .error e => .error e
    | .ok st2 => buildGo st2 ls

/-- `buildFileProgram` of executor.cpp, over an already-read list of source
lines (the spec: "The Program Builder's only dependency is an ordered
sequence of text lines"). -/
def buildProgram (lines : List Str) : Except ParseErr AsmProgram :=
  match buildGo ⟨[], [], [], 0⟩ lines with
  | .error e => .error e
  | .ok st => .ok ⟨st.code, st.labels, st.addr2idx⟩

/-! Concrete machine states and programs used by the claim theorems,
counterexamples and witnesses. -/

/-- 256 zero bytes: a freshly constructed `Stack` (`mem_.fill(0)`). -/
def zeroMem : List Nat := List.replicate 256 0

/-- The start state of executor_main.cpp: zeroed registers and flags,
`SP = stack.base() = 0`, zeroed 256-byte stack. -/
def initState : MachState :=
  ⟨List.replicate 31 0, 0, 0, ⟨false, false, false, false⟩, 0, zeroMem⟩

/-- One-instruction program `CMP X0, X1`. -/
def cmpProg53 : AsmProgram :=
  ⟨[⟨0, 1, ⟨"CMP".toList, [⟨.Register, "X0".toList, 0⟩, ⟨.Register, "X1".toList, 0⟩]⟩⟩],
   [], [(0, 0)]⟩

/-- State with X0 = 5 and X1 = 3. -/
def cmpSt53 : MachState :=
  { initState with x := ((List.replicate 31 0).set 0 5).set 1 3 }

/-- One-instruction program `LDR X0, [SP, off]` for a given offset token. -/
def ldrSpProg (off : Str) : AsmProgram :=
  ⟨[⟨0, 1, ⟨"LDR".toList,
     [⟨.Register, "X0".toList, 0⟩, ⟨.Memory, "[SP, ".toList ++ off ++ "]".toList, 0⟩]⟩⟩],
   [], [(0, 0)]⟩

/-- One-instruction program `LDRB W0, [X1]`. -/
def ldrbX1Prog : AsmProgram :=
  ⟨[⟨0, 1, ⟨"LDRB".toList, [⟨.Register, "W0".toList, 0⟩, ⟨.Memory, "[X1]".toList, 0⟩]⟩⟩],
   [], [(0, 0)]⟩

/-- State with X1 = 2^64 - 1 (stack base 0). -/
def stX1Max : MachState := { initState with x := (List.replicate 31 0).set 1 (W64 - 1) }

/-- One-instruction program `STR X0, [X1]`. -/
def strX1Prog : AsmProgram :=
  ⟨[⟨0, 1, ⟨"STR".toList, [⟨.Register, "X0".toList, 0⟩, ⟨.Memory, "[X1]".toList, 0⟩]⟩⟩],
   [], [(0, 0)]⟩

/-- State with stack base 2^64 - 260, X0 = 0x0102030405060708 and
X1 = 2^64 - 8 (so the STR window straddles the end of the address space). -/
def strOverSt : MachState :=
  { initState with base := W64 - 260,
                   x := ((List.replicate 31 0).set 0 72623859790382856).set 1 (W64 - 8) }

/-- The state `strX1Prog` leaves behind when the STR byte loop throws after
its first four writes: stack offsets 252-255 hold the low four bytes of X0. -/
def strOverAfter : MachState :=
  { strOverSt with mem := ((((zeroMem.set 252 8).set 253 7).set 254 6).set 255 5) }

/-- Two-instruction program `RET; NOP`. -/
def retNopProg : AsmProgram :=
  ⟨[⟨0, 1, ⟨"RET".toList, []⟩⟩, ⟨4, 2, ⟨"NOP".toList, []⟩⟩], [], [(0, 0), (4, 1)]⟩

/-- The empty program. -/
def emptyProg : AsmProgram := ⟨[], [], []⟩

/-- Source lines defining a label whose name is made of hex digits. -/
def abLines : List Str := ["AB: NOP".toList, "B AB".toList]

/-- The program `buildProgram abLines` produces: label AB recorded at
address 0, `B AB` at address 4. -/
def abProg : AsmProgram :=
  ⟨[⟨0, 1, ⟨"NOP".toList, []⟩⟩, ⟨4, 2, ⟨"B".toList, [⟨.Label, "AB".toList, 0⟩]⟩⟩],
   [("AB".toList, 0)], [(0, 0), (4, 1)]⟩

/-- Two-instruction program `STR X5, [SP, #tok]; LDR X6, [SP, #tok]`. -/
def strLdrProg (tok : Str) : AsmProgram :=
  ⟨[⟨0, 1, ⟨"STR".toList,
     [⟨.Register, "X5".toList, 0⟩, ⟨.Memory, "[SP, ".toList ++ tok ++ "]".toList, 0⟩]⟩⟩,
    ⟨4, 2, ⟨"LDR".toList,
     [⟨.Register, "X6".toList, 0⟩, ⟨.Memory, "[SP, ".toList ++ tok ++ "]".toList, 0⟩]⟩⟩],
   [], [(0, 0), (4, 1)]⟩

/-- Two-instruction program with an unknown mnemonic followed by `NOP`. -/
def fooProg : AsmProgram :=
  ⟨[⟨0, 1, ⟨"FOO".toList, [⟨.Register, "X0".toList, 0⟩]⟩⟩, ⟨4, 2, ⟨"NOP".toList, []⟩⟩],
   [], [(0, 0), (4, 1)]⟩

/-- The sixteen mnemonics the `step` dispatch recognizes (NOP, MOV, ADD,
SUB, AND, EOR, MUL, CMP, LDR, LDRB, STR, STRB, B, B.GT, B.LE, RET); anything
else falls through to the permissive no-op branch. -/
def knownMnemonics : List Str :=
  [['N', 'O', 'P'], ['M', 'O', 'V'], ['A', 'D', 'D'], ['S', 'U', 'B'], ['A', 'N', 'D'],
   ['E', 'O', 'R'], ['M', 'U', 'L'], ['C', 'M', 'P'], ['L', 'D', 'R'], ['L', 'D', 'R', 'B'],
   ['S', 'T', 'R'], ['S', 'T', 'R', 'B'], ['B'], ['B', '.', 'G', 'T'], ['B', '.', 'L', 'E'],
   ['R', 'E', 'T']]

/-- Source lines of the label-placement test from the spec. -/
def loopLines : List Str := ["LOOP: ADD X0,X0,#1".toList, "B LOOP".toList]

/-- The program `buildProgram loopLines` produces: LOOP recorded at address
0, `ADD X0, X0, #1` at 0 and `B LOOP` at 4. -/
def loopProg : AsmProgram :=
  ⟨[⟨0, 1, ⟨"ADD".toList,
      [⟨.Register, "X0".toList, 0⟩, ⟨.Register, "X0".toList, 0⟩, ⟨.Immediate, "#1".toList, 1⟩]⟩⟩,
    ⟨4, 2, ⟨"B".toList, [⟨.Label, "LOOP".toList, 0⟩]⟩⟩],
   [("LOOP".toList, 0)], [(0, 0), (4, 1)]⟩

/-- The loop invariant of `buildFileProgram`: instruction counter tracks the
emitted count, addresses are `index * 4` (in uint64 arithmetic), the address
map sends each instruction address to its position, and recorded labels map
to `k * 4` for some `k` at most the emitted count. -/
def BuildInv (st : BuildSt) : Prop :=
  st.instrIndex = st.code.length ∧
  (∀ i, i < st.code.length →
    (st.code.getD i default).addr = (i * 4) % W64 ∧
    (st.code.getD i default).instrIndex = i + 1) ∧
  (4 * st.code.length < W64 →
    ∀ i, i < st.code.length → lookupAssoc st.addr2idx ((i * 4) % W64) = some i) ∧
  (∀ nm a, lookupAssoc st.labels nm = some a →
    ∃ k, k ≤ st.code.length ∧ a = (k * 4) % W64)

instance {ε α : Type} [DecidableEq ε] [DecidableEq α] : DecidableEq (Except ε α)
  | .ok a, .ok b => decidable_of_iff (a = b) (by simp)
  | .error a, .error b => decidable_of_iff (a = b) (by simp)
  | .ok _, .error _ => .isFalse (by simp)
  | .error _, .ok _ => .isFalse (by simp)

set_option maxRecDepth 100000
set_option maxHeartbeats 1000000

/-! ## Theorems -/

/-- C1: executor.cpp's CMP flag computation is two's-complement subtraction
at the operand width with N = sign bit, Z = zero, C = unsigned no-borrow,
V = signed overflow, and `CMP X0, X1` with X0 = 5, X1 = 3 computes
N = 0, Z = 0, C = 1, V = 0 — the four values the claim says are stored.
The step model (whose flag state mirrors what executor.cpp assigns) carries
all four; `struct ProcessorState` of registers.hpp, however, declares only
`N` and `Z` ("C and V flags are not implemented"), so the declared processor
state cannot store the computed C and V. -/
theorem c1_cmp_flags_computed :
    stackSubFlags64 5 3 (sub64 5 3) = ⟨false, false, true, false⟩ ∧
    step cmpProg53 cmpSt53 0 =
      .ok false { cmpSt53 with ps := ⟨false, false, true, false⟩, pcReg := 4 } 4 := by
  constructor
  · decide
  · decide

/-- C2: the load/store bounds checks reject the in-range boundary violations
(`LDR X0, [SP, #252]` with base 0, size 256 fails; `[SP, #248]` succeeds),
but they do not fail for *every* out-of-window address: at effective address
2^64 - 1 both the executor's `addr + w > base + size` test (uint64_t
wraparound) and `Stack::boundsCheck`'s `offset + width > stackSize` test
(size_t wraparound) pass, so `LDRB W0, [X1]` with X1 = 2^64 - 1 performs the
access with no MemoryBoundsError even though [2^64-1, 2^64) is not inside
[0, 256). -/
theorem c2_bounds_bypass_at_wrap :
    step (ldrSpProg "#252".toList) initState 0 = .err .ldrOOB initState 0 ∧
    step (ldrSpProg "#248".toList) initState 0 = .ok false { initState with pcReg := 4 } 4 ∧
    step ldrbX1Prog stX1Max 0 = .ok false { stX1Max with pcReg := 4 } 4 ∧
    (W64 - 1) + 1 > 0 + 256 := by
  refine ⟨by decide, by decide, by decide, by decide⟩

/-- C3 counterexample: `step` on `RET` (program `RET; NOP`, pc = 0) returns
false and leaves the PC register and the pc argument untouched, although the
computed next PC 4 differs from the end sentinel 8 — so the claimed
"next PC is written and continue = (next_pc != end_sentinel)" fails for RET
(it would demand continue = true and PC register = 4). -/
theorem c3_ret_counterexample :
    step retNopProg initState 0 = .ok false initState 0 ∧
    (0 + 4 : Nat) % W64 ≠ (retNopProg.code.length * 4) % W64 ∧
    initState.pcReg ≠ (0 + 4) % W64 := by
  refine ⟨by decide, by decide, by decide⟩

/-- C4 counterexample: for the empty program, `step` at the non-sentinel
pc 8 returns false without any error (`prog.code.empty()` short-circuits
before the address lookup), contradicting the claimed InvalidPC failure. -/
theorem c4_empty_program_counterexample :
    step emptyProg initState 8 = .ok false initState 8 ∧
    (8 : Nat) ≠ (emptyProg.code.length * 4) % W64 := by
  refine ⟨by decide, by decide⟩

/-- C6 counterexample: the program built from `AB: NOP` / `B AB` records
label AB at address 0, yet executing `B AB` branches to 0xAB = 171, because
`resolveBranchTarget` tries the hex-literal parse before the label lookup —
branching by a hex-digit-only label name does not reach the label's recorded
address. -/
theorem c6_hex_label_counterexample :
    buildProgram abLines = .ok abProg ∧
    lookupAssoc abProg.labels "AB".toList = some 0 ∧
    step abProg initState 4 = .ok true { initState with pcReg := 171 } 171 ∧
    (171 : Nat) ≠ 0 := by
  refine ⟨by decide, by decide, by decide, by decide⟩

/-- C9: a `step` call that fails can leave a partial multi-byte store
behind: with stack base 2^64 - 260 and X1 = 2^64 - 8, `STR X0, [X1]` passes
the executor-level window check (the uint64_t `addr + 8` wraps to 0), writes
the low four bytes of X0 at stack offsets 252-255, and only then throws from
`Stack::boundsCheck` at offset 256 — the error escapes `step` with the stack
modified, contradicting the claimed no-partial-store atomicity. -/
theorem c9_partial_store_on_error :
    step strX1Prog strOverSt 0 = .err .stackRange strOverAfter 0 ∧
    strOverAfter.mem.getD 252 0 = 8 ∧ strOverSt.mem.getD 252 0 = 0 ∧
    strOverAfter.mem ≠ strOverSt.mem := by
  refine ⟨by decide, by decide, by decide, by decide⟩

theorem stoullOut_lt (neg : Bool) (v a : Nat) (h : stoullOut neg v = .ok a) : a < W64 := by
  unfold stoullOut at h
  split at h
  · cases h
  · cases h
    split
    · exact Nat.mod_lt _ (by decide)
    · omega

theorem cppStoullHex_lt (s : Str) (a : Nat) (h : cppStoullHex s = .ok a) : a < W64 := by
  unfold cppStoullHex at h
  simp only [] at h
  split at h
  · cases h
  · exact stoullOut_lt _ _ _ h

theorem toOption_eq_some {ε α : Type} (e : Except ε α) (a : α)
    (h : e.toOption = some a) : e = .ok a := by
  cases e with
  | ok v => cases h; rfl
  | error er => cases h

theorem tryParseHex_lt (t : Str) (a : Nat)
    (h : tryParseHexAddrLabelish t = some a) : a < W64 := by
  unfold tryParseHexAddrLabelish at h
  simp only [] at h
  split at h
  · cases h
  · split at h
    · exact cppStoullHex_lt _ _ (toOption_eq_some _ _ h)
    · split at h
      · exact cppStoullHex_lt _ _ (toOption_eq_some _ _ h)
      · cases h

theorem resolveBranchTarget_lt (prog : AsmProgram) (t : Str) (a : Nat)
    (h : resolveBranchTarget prog t = .ok a) : a < W64 := by
  unfold resolveBranchTarget at h
  split at h
  · rename_i addr heq
    cases h
    exact tryParseHex_lt _ _ heq
  · split at h
    · cases h
      exact Nat.mod_lt _ (by decide)
    · cases h

theorem execBI_lt (prog : AsmProgram) (ops : List Operand) (s : MachState) (a : Nat)
    (h : execBI prog ops s = .ok a) : a < W64 := by
  unfold execBI at h
  split at h
  · cases h
  · exact resolveBranchTarget_lt _ _ _ h

theorem execBCondI_lt (prog : AsmProgram) (isGT : Bool) (ops : List Operand)
    (s : MachState) (npc a : Nat) (hn : npc < W64)
    (h : execBCondI prog isGT ops s npc = .ok a) : a < W64 := by
  unfold execBCondI at h
  simp only [] at h
  repeat' split at h
  all_goals
    first
    | exact resolveBranchTarget_lt _ _ _ h
    | (cases h <;> exact hn)
    | cases h

theorem decodeMnem_eq_ret (up : Str) (h : decodeMnem up = .ret) : up = ['R', 'E', 'T'] := by
  unfold decodeMnem at h
  split_ifs at h <;> first | assumption | cases h

theorem decodeMnem_ret_of (up : Str) (h : up = ['R', 'E', 'T']) : decodeMnem up = .ret := by
  subst h
  rfl

theorem decodeMnem_other (up : Str) (hmn : ∀ m ∈ knownMnemonics, up ≠ m) :
    decodeMnem up = .other := by
  simp only [knownMnemonics, List.mem_cons, List.not_mem_nil, forall_eq_or_imp] at hmn
  obtain ⟨h1, h2, h3, h4, h5, h6, h7, h8, h9, h10, h11, h12, h13, h14, h15, h16, -⟩ := hmn
  unfold decodeMnem
  rw [if_neg h1, if_neg h2, if_neg (by tauto), if_neg h8, if_neg (by tauto),
      if_neg (by tauto), if_neg h13, if_neg h14, if_neg h15, if_neg h16]

theorem step_eq_dispatch (prog : AsmProgram) (s : MachState) (pc idx : Nat)
    (hne : prog.code ≠ [])
    (hpc : pc ≠ (prog.code.length * 4) % W64)
    (hlk : lookupAssoc prog.addr2idx pc = some idx) :
    step prog s pc =
      match execInst prog (prog.code.getD idx default) s pc with
      | .error (e, s2) => .err e s2 pc
      | .ok .halt => .ok false s pc
      | .ok (.next s2 np) =>
        .ok (np != (prog.code.length * 4) % W64) (setPC s2 np) np := by
  unfold step
  simp only []
  rw [if_neg hne, if_neg hpc, hlk]

theorem execInst_halt (prog : AsmProgram) (ai : AsmInst) (s : MachState) (pc : Nat)
    (h : execInst prog ai s pc = .ok .halt) :
    upperCopy ai.inst.mnem = ['R', 'E', 'T'] := by
  unfold execInst at h
  split at h
  all_goals repeat' split at h
  all_goals cases h
  all_goals exact decodeMnem_eq_ret _ (by assumption)

theorem execInst_ret (prog : AsmProgram) (ai : AsmInst) (s : MachState) (pc : Nat)
    (h : upperCopy ai.inst.mnem = ['R', 'E', 'T']) :
    execInst prog ai s pc = .ok .halt := by
  unfold execInst
  rw [decodeMnem_ret_of _ h]

theorem execInst_next_lt (prog : AsmProgram) (ai : AsmInst) (s : MachState)
    (pc : Nat) (s2 : MachState) (np : Nat)
    (h : execInst prog ai s pc = .ok (.next s2 np)) : np < W64 := by
  unfold execInst at h
  split at h
  all_goals repeat' split at h
  all_goals cases h
  all_goals
    first
    | exact Nat.mod_lt _ (by decide)
    | exact execBI_lt _ _ _ _ (by assumption)
    | exact execBCondI_lt _ _ _ _ _ _ (Nat.mod_lt _ (by decide)) (by assumption)

/-- C4 (amended): for a nonempty program, a pc equal to the end sentinel
returns false without error and a pc matching no mapped address (and not the
sentinel) fails with InvalidPC; for the empty program, `step` returns false
for every pc — `if (prog.code.empty()) return false;` runs before the
address lookup, so an empty program never raises InvalidPC. -/
theorem c4_pc_resolution (prog : AsmProgram) (s : MachState) (pc : Nat) :
    (prog.code = [] → step prog s pc = .ok false s pc) ∧
    (pc = (prog.code.length * 4) % W64 → step prog s pc = .ok false s pc) ∧
    (prog.code ≠ [] → pc ≠ (prog.code.length * 4) % W64 →
      lookupAssoc prog.addr2idx pc = none → step prog s pc = .err .invalidPC s pc) := by
  refine ⟨fun h => ?_, fun h => ?_, fun h1 h2 h3 => ?_⟩
  · simp [step, h]
  · by_cases hc : prog.code = []
    · simp [step, hc]
    · simp [step, hc, h]
  · simp [step, h1, h2, h3]

/-- Witness for C4: a two-instruction program (end sentinel 8) stepped at
pc = 12 fails with InvalidPC. -/
theorem c4_pc_resolution_witness :
    step fooProg initState 12 = .err .invalidPC initState 12 :=
  (c4_pc_resolution fooProg initState 12).2.2 (by decide) (by decide) (by decide)

/-- C6 (amended): `resolveBranchTarget` first tries to read the operand as a
literal hex address and returns that value when it parses; only otherwise
does it look the (trimmed, uppercased) operand up in the label map,
case-insensitively; and it fails with UndefinedLabelError when both miss.
Hence branching by a label's name reaches the label's recorded address only
when the name does not parse as a hex literal — a label named entirely with
hex digit characters is shadowed by the hex interpretation. -/
theorem c6_branch_resolution (prog : AsmProgram) (op : Str) :
    (∀ a, tryParseHexAddrLabelish op = some a → resolveBranchTarget prog op = .ok a) ∧
    (tryParseHexAddrLabelish op = none →
      ∀ a, lookupAssoc prog.labels (upperCopy (trimCopy op)) = some a →
        resolveBranchTarget prog op = .ok (a % W64)) ∧
    (tryParseHexAddrLabelish op = none →
      lookupAssoc prog.labels (upperCopy (trimCopy op)) = none →
      resolveBranchTarget prog op = .error .undefinedLabel) := by
  refine ⟨fun a h => ?_, fun h a h2 => ?_, fun h h2 => ?_⟩
  · simp [resolveBranchTarget, h]
  · simp [resolveBranchTarget, h, h2]
  · simp [resolveBranchTarget, h, h2]

/-- Witness for C6: in the LOOP program the operand `LOOP` does not parse as
hex ('L', 'O', 'P' are not hex digits), so the branch resolves to the
label's recorded address 0. -/
theorem c6_branch_resolution_witness :
    resolveBranchTarget loopProg "LOOP".toList = .ok 0 :=
  (c6_branch_resolution loopProg "LOOP".toList).2.1 (by decide) 0 (by decide)

/-- C8: executing a decoded instruction whose uppercased mnemonic is none of
the sixteen implemented ones hits the explicit permissive fallback: no
error, no change to any register, SP, flag or stack byte; the PC register is
set to pc + 4 and `step` returns (pc + 4 != end sentinel). -/
theorem c8_unknown_mnemonic_noop (prog : AsmProgram) (s : MachState) (pc idx : Nat)
    (hne : prog.code ≠ [])
    (hpc : pc ≠ (prog.code.length * 4) % W64)
    (hlk : lookupAssoc prog.addr2idx pc = some idx)
    (hmn : ∀ m ∈ knownMnemonics, upperCopy (prog.code.getD idx default).inst.mnem ≠ m) :
    step prog s pc =
      .ok ((pc + 4) % W64 != (prog.code.length * 4) % W64)
        { s with pcReg := (pc + 4) % W64 } ((pc + 4) % W64) := by
  have hE : execInst prog (prog.code.getD idx default) s pc = .ok (.next s ((pc + 4) % W64)) := by
    unfold execInst
    rw [decodeMnem_other _ hmn]
  rw [step_eq_dispatch prog s pc idx hne hpc hlk, hE]
  simp only [setPC]
  congr 2
  exact Nat.mod_eq_of_lt (Nat.mod_lt (pc + 4) (show 0 < W64 by decide))

/-- Witness for C8: the unknown mnemonic `FOO` in a two-instruction program
advances PC to 4 and returns true, leaving the state otherwise untouched. -/
theorem c8_unknown_mnemonic_noop_witness :
    step fooProg initState 0 = .ok true { initState with pcReg := 4 } 4 := by
  have h := c8_unknown_mnemonic_noop fooProg initState 0 0
    (by decide) (by decide) (by decide) (by decide)
  simpa using h

/-- C3 (amended): when `step` resolves pc to an instruction, then for every
mnemonic other than RET a successful call writes the computed next PC into
the PC register and returns `continue = (next_pc != end_sentinel)`; RET
instead returns false immediately, leaving the PC register and the pc
argument untouched (executor.cpp line 417 returns before the PC write). -/
theorem c3_next_pc_written (prog : AsmProgram) (s : MachState) (pc idx : Nat)
    (hne : prog.code ≠ [])
    (hpc : pc ≠ (prog.code.length * 4) % W64)
    (hlk : lookupAssoc prog.addr2idx pc = some idx) :
    (upperCopy (prog.code.getD idx default).inst.mnem = ['R', 'E', 'T'] →
       step prog s pc = .ok false s pc) ∧
    (upperCopy (prog.code.getD idx default).inst.mnem ≠ ['R', 'E', 'T'] →
       ∀ cont s2 pc2, step prog s pc = .ok cont s2 pc2 →
         s2.pcReg = pc2 ∧ cont = (pc2 != (prog.code.length * 4) % W64)) := by
  constructor
  · intro hret
    have hE := execInst_ret prog (prog.code.getD idx default) s pc hret
    rw [step_eq_dispatch prog s pc idx hne hpc hlk, hE]
  · intro hret cont s2 pc2 hstep
    rw [step_eq_dispatch prog s pc idx hne hpc hlk] at hstep
    cases hE : execInst prog (prog.code.getD idx default) s pc with
    | error es =>
      rw [hE] at hstep
      exact absurd hstep (by simp)
    | ok out =>
      cases out with
      | halt => exact absurd (execInst_halt _ _ _ _ hE) hret
      | next s3 np =>
        rw [hE] at hstep
        simp only [StepOut.ok.injEq] at hstep
        obtain ⟨hc, hs, hp⟩ := hstep
        subst hc hs hp
        refine ⟨?_, rfl⟩
        simpa [setPC] using Nat.mod_eq_of_lt (execInst_next_lt _ _ _ _ _ _ hE)

/-- Witness for C3: the non-RET instruction at pc 0 of the FOO program
yields PC register = returned pc = 4 and continue = (4 != 8) = true. -/
theorem c3_next_pc_written_witness :
    ({ initState with pcReg := 4 } : MachState).pcReg = 4 ∧
    true = ((4 : Nat) != (fooProg.code.length * 4) % W64) :=
  (c3_next_pc_written fooProg initState 0 0 (by decide) (by decide) (by decide)).2
    (by decide) true { initState with pcReg := 4 } 4 (by decide)


theorem lor_shiftLeft_eq_add (a b m : ℕ) (h : a < 2 ^ m) :
    a ||| (b <<< m) = a + b * 2 ^ m := by
  apply Nat.eq_of_testBit_eq
  intro i
  rw [Nat.testBit_lor]
  rcases Nat.lt_or_ge i m with hi | hi
  · have h1 : (b <<< m).testBit i = false := by
      rw [Nat.testBit_shiftLeft]
      simp [Nat.not_le.2 hi]
    have e1 := Nat.testBit_mod_two_pow (a + b * 2 ^ m) m i
    have e2 := Nat.testBit_mod_two_pow a m i
    have hmod : (a + b * 2 ^ m) % 2 ^ m = a % 2 ^ m := by
      simp [Nat.add_mul_mod_self_right]
    rw [hmod] at e1
    have hd : decide (i < m) = true := decide_eq_true hi
    rw [hd, Bool.true_and] at e1 e2
    rw [h1, Bool.or_false, ← e2, e1]
  · have h1 : a.testBit i = false :=
      Nat.testBit_lt_two_pow (lt_of_lt_of_le h (Nat.pow_le_pow_right (by norm_num) hi))
    rw [h1, Bool.false_or]
    obtain ⟨j, rfl⟩ := Nat.exists_eq_add_of_le hi
    have e3 : (a + b * 2 ^ m).testBit (m + j) = ((a + b * 2 ^ m) >>> m).testBit j := by
      rw [Nat.testBit_shiftRight]
    have e4 : (a + b * 2 ^ m) >>> m = b := by
      rw [Nat.shiftRight_eq_div_pow]
      rw [Nat.add_mul_div_right _ _ (Nat.pos_pow_of_pos m (by norm_num))]
      simp [Nat.div_eq_of_lt h]
    have e5 : (b <<< m).testBit (m + j) = b.testBit j := by
      rw [Nat.testBit_shiftLeft]
      simp
    rw [e3, e4, e5]

theorem byte_recompose (x m : ℕ) :
    x % 2 ^ m ||| (((x >>> m) &&& 255) <<< m) = x % 2 ^ (m + 8) := by
  rw [lor_shiftLeft_eq_add _ _ _ (Nat.mod_lt _ (Nat.pos_pow_of_pos m (by norm_num)))]
  rw [Nat.and_pow_two_sub_one_eq_mod _ 8, Nat.shiftRight_eq_div_pow]
  rw [Nat.pow_add, Nat.mod_mul]
  ring

theorem storeBytes_spec (o v : Nat) :
    ∀ (n i : Nat) (mem : List Nat), mem.length = 256 → o + i + n ≤ 256 →
    ∃ mem2, storeBytesLE o v i n mem = .ok mem2 ∧ mem2.length = 256 ∧
      ∀ j, mem2.getD j 0 =
        if o + i ≤ j ∧ j < o + i + n then (v >>> ((j - o) * 8)) &&& 255
        else mem.getD j 0 := by
  intro n
  induction n with
  | zero =>
    intro i mem hlen hb
    refine ⟨mem, rfl, hlen, fun j => ?_⟩
    rw [if_neg]
    omega
  | succ n ih =>
    intro i mem hlen hb
    have hoi : o + i ≤ 255 := by omega
    have hW : (o + i) % W64 = o + i := Nat.mod_eq_of_lt (by unfold W64; omega)
    have hW1 : (o + i + 1) % W64 = o + i + 1 := Nat.mod_eq_of_lt (by unfold W64; omega)
    have hwrite : stackW8 mem ((o + i) % W64) ((v >>> (i * 8)) &&& 255) =
        .ok (mem.set (o + i) ((v >>> (i * 8)) &&& 255)) := by
      unfold stackW8
      rw [hW, if_neg (by omega)]
      congr 1
      congr 1
      exact Nat.mod_eq_of_lt (by have := Nat.and_le_right (n := v >>> (i * 8)) (m := 255); omega)
    have hlen2 : (mem.set (o + i) ((v >>> (i * 8)) &&& 255)).length = 256 := by
      simp [hlen]
    obtain ⟨mem2, hrun, hlen3, hget⟩ :=
      ih (i + 1) (mem.set (o + i) ((v >>> (i * 8)) &&& 255)) hlen2 (by omega)
    refine ⟨mem2, ?_, hlen3, fun j => ?_⟩
    · unfold storeBytesLE
      rw [hwrite]
      exact hrun
    · rw [hget j]
      by_cases hj : o + (i + 1) ≤ j ∧ j < o + (i + 1) + n
      · rw [if_pos hj, if_pos (by omega)]
      · rw [if_neg hj]
        by_cases hj2 : j = o + i
        · subst hj2
          rw [if_pos (by omega)]
          have : o + i - o = i := by omega
          rw [this]
          have hlt : o + i < mem.length := by omega
          simp [List.getD, List.getElem?_set_self, hlt]
        · rw [if_neg (by omega)]
          simp [List.getD, List.getElem?_set_ne (by omega : o + i ≠ j)]


theorem W64_eq : W64 = 2 ^ 64 := by decide

theorem loadBytes_go (o v : Nat) (mem : List Nat)
    (hbytes : ∀ t, t < 8 → mem.getD (o + t) 0 = (v >>> (t * 8)) &&& 255)
    (ho : o + 8 ≤ 256) :
    ∀ (n i : Nat), i + n = 8 →
      loadBytesLE o i n (v % 2 ^ (i * 8)) mem = .ok (v % 2 ^ ((i + n) * 8)) := by
  intro n
  induction n with
  | zero =>
    intro i hi
    unfold loadBytesLE
    rfl
  | succ n ih =>
    intro i hi
    have hoi : o + i ≤ 255 := by omega
    have hW : (o + i) % W64 = o + i := Nat.mod_eq_of_lt (by unfold W64; omega)
    have hread : stackR8 mem ((o + i) % W64) = .ok ((v >>> (i * 8)) &&& 255) := by
      unfold stackR8
      rw [hW, if_neg (by unfold W64; omega)]
      rw [hbytes i (by omega)]
      congr 1
      exact Nat.mod_eq_of_lt (by have := Nat.and_le_right (n := v >>> (i * 8)) (m := 255); omega)
    have hacc : v % 2 ^ (i * 8) ||| (((v >>> (i * 8)) &&& 255) <<< (i * 8)) =
        v % 2 ^ ((i + 1) * 8) := by
      have := byte_recompose v (i * 8)
      have he : i * 8 + 8 = (i + 1) * 8 := by ring
      rw [he] at this
      exact this
    unfold loadBytesLE
    rw [hread]
    show loadBytesLE o (i + 1) n
        (v % 2 ^ (i * 8) ||| ((v >>> (i * 8)) &&& 255) <<< (i * 8)) mem =
      Except.ok (v % 2 ^ ((i + (n + 1)) * 8))
    rw [hacc]
    have hrec := ih (i + 1) (by omega)
    rw [show (i + 1 + n) * 8 = (i + (n + 1)) * 8 by ring] at hrec
    exact hrec

theorem loadBytes_spec (o v : Nat) (mem : List Nat) (hv : v < W64)
    (hbytes : ∀ t, t < 8 → mem.getD (o + t) 0 = (v >>> (t * 8)) &&& 255)
    (ho : o + 8 ≤ 256) :
    loadBytesLE o 0 8 0 mem = .ok v := by
  have h := loadBytes_go o v mem hbytes ho 8 0 (by omega)
  rw [show v % 2 ^ (0 * 8) = 0 by rw [Nat.zero_mul, Nat.pow_zero, Nat.mod_one]] at h
  rw [show ((0 + 8) * 8) = 64 by norm_num] at h
  rw [Nat.mod_eq_of_lt (show v < 2 ^ 64 from W64_eq ▸ hv)] at h
  exact h


theorem dropWhile_eq_self_of_head (p : Char → Bool) (l : Str)
    (h : ∀ c, l.head? = some c → p c = false) : l.dropWhile p = l := by
  cases l with
  | nil => rfl
  | cons c r => simp [List.dropWhile_cons, h c rfl]

theorem trimCopy_eq_self (s : Str)
    (h1 : ∀ c, s.head? = some c → cppIsSpace c = false)
    (h2 : ∀ c, s.getLast? = some c → cppIsSpace c = false) : trimCopy s = s := by
  unfold trimCopy
  rw [dropWhile_eq_self_of_head _ _ h1]
  rw [dropWhile_eq_self_of_head _ _ (by simpa using h2)]
  exact List.reverse_reverse s

theorem takeWhile_all (p : Char → Bool) (l : Str) (h : ∀ c ∈ l, p c = true) :
    l.takeWhile p = l := by
  induction l with
  | nil => rfl
  | cons c r ih =>
    rw [List.takeWhile_cons, h c (by simp)]
    rw [ih (fun d hd => h d (by simp [hd]))]
    simp

theorem splitFirst_not_mem (ch : Char) (l : Str) (h : ∀ c ∈ l, c ≠ ch) :
    splitFirst ch l = none := by
  induction l with
  | nil => rfl
  | cons c r ih =>
    unfold splitFirst
    rw [if_neg (h c (by simp))]
    rw [ih (fun d hd => h d (by simp [hd]))]

theorem signSplit_of_not_sign (c : Char) (r : Str) (h1 : c ≠ '-') (h2 : c ≠ '+') :
    signSplit (c :: r) = (false, c :: r) := by
  unfold signSplit
  split
  · rename_i heq
    cases heq
    exact absurd rfl h1
  · rename_i heq
    cases heq
    exact absurd rfl h2
  · rfl


theorem mem_of_getLast_some (l : Str) (a : Char) (h : l.getLast? = some a) : a ∈ l := by
  obtain ⟨hne, rfl⟩ := List.mem_getLast?_eq_getLast (by rw [h]; rfl)
  exact List.getLast_mem hne

theorem getLast_cons_ne_nil (c : Char) (tok : Str) (h : tok ≠ []) :
    (c :: tok).getLast? = tok.getLast? := by
  cases tok with
  | nil => exact absurd rfl h
  | cons d r => rfl

theorem digit_ne (c d : Char) (h : cppIsDigit c = true) (hd : cppIsDigit d = false) :
    c ≠ d := by
  intro hc
  subst hc
  rw [h] at hd
  cases hd

theorem not_space_of_digit (c : Char) (h : cppIsDigit c = true) : cppIsSpace c = false := by
  unfold cppIsSpace
  have h1 := digit_ne c ' ' h (by decide)
  have h2 := digit_ne c '\t' h (by decide)
  have h3 := digit_ne c '\n' h (by decide)
  have h4 := digit_ne c '\x0b' h (by decide)
  have h5 := digit_ne c '\x0c' h (by decide)
  have h6 := digit_ne c '\r' h (by decide)
  simp [h1, h2, h3, h4, h5, h6]

theorem hasHexMark_digits (tok : Str) (hd : ∀ c ∈ tok, cppIsDigit c = true) :
    hasHexMark tok = false := by
  unfold hasHexMark
  split
  · exact absurd (hd 'x' (by simp)) (by decide)
  · exact absurd (hd 'X' (by simp)) (by decide)
  · rfl

theorem trimCopy_hash_tok (pre tok : Str) (hpre : pre = ['#'] ∨ pre = ['#', '-'])
    (hne : tok ≠ []) (hd : ∀ c ∈ tok, cppIsDigit c = true) :
    trimCopy (pre ++ tok) = pre ++ tok := by
  apply trimCopy_eq_self
  · intro c hc
    rcases hpre with h | h <;> subst h <;> (cases hc; decide)
  · intro c hc
    have hmem : c ∈ pre ++ tok := mem_of_getLast_some _ _ hc
    have hlast : (pre ++ tok).getLast? = tok.getLast? := by
      rcases hpre with h | h <;> subst h
      · exact getLast_cons_ne_nil _ _ hne
      · rw [show (['#', '-'] ++ tok) = '#' :: ('-' :: tok) from rfl]
        rw [getLast_cons_ne_nil _ _ (by simp), getLast_cons_ne_nil _ _ hne]
    rw [hlast] at hc
    exact not_space_of_digit c (hd c (mem_of_getLast_some _ _ hc))

theorem parseImm_hash (tok : Str) (hne : tok ≠ [])
    (hd : ∀ c ∈ tok, cppIsDigit c = true) (hk : decVal tok < W64) :
    parseImm ('#' :: tok) = .ok (decVal tok) := by
  unfold parseImm
  simp only []
  rw [show ('#' :: tok) = ['#'] ++ tok from rfl]
  rw [trimCopy_hash_tok ['#'] tok (Or.inl rfl) hne hd]
  rw [show (['#'] ++ tok : Str) = '#' :: tok from rfl]
  show (if hasHexMark tok then cppStoullHex tok else cppStoullDec tok) = .ok (decVal tok)
  rw [hasHexMark_digits tok hd]
  show cppStoullDec tok = .ok (decVal tok)
  cases tok with
  | nil => exact absurd rfl hne
  | cons c r =>
    unfold cppStoullDec
    rw [signSplit_of_not_sign c r (digit_ne c '-' (hd c (by simp)) (by decide))
      (digit_ne c '+' (hd c (by simp)) (by decide))]
    simp only []
    rw [takeWhile_all _ _ hd]
    rw [if_neg (by simp)]
    unfold stoullOut
    rw [if_neg (by omega)]
    rfl

theorem parseImm_hash_neg (tok : Str) (hne : tok ≠ [])
    (hd : ∀ c ∈ tok, cppIsDigit c = true) (hk : decVal tok < W64) (hpos : 0 < decVal tok) :
    parseImm ('#' :: '-' :: tok) = .ok (W64 - decVal tok) := by
  unfold parseImm
  simp only []
  rw [show ('#' :: '-' :: tok) = ['#', '-'] ++ tok from rfl]
  rw [trimCopy_hash_tok ['#', '-'] tok (Or.inr rfl) hne hd]
  rw [show (['#', '-'] ++ tok : Str) = '#' :: ('-' :: tok) from rfl]
  show (if hasHexMark ('-' :: tok) then cppStoullHex ('-' :: tok)
        else cppStoullDec ('-' :: tok)) = .ok (W64 - decVal tok)
  rw [show hasHexMark ('-' :: tok) = false from rfl]
  show cppStoullDec ('-' :: tok) = .ok (W64 - decVal tok)
  unfold cppStoullDec
  rw [show signSplit ('-' :: tok) = (true, tok) from rfl]
  simp only []
  rw [takeWhile_all _ _ hd]
  rw [if_neg (by simp [hne])]
  unfold stoullOut
  rw [if_neg (by omega)]
  rw [if_pos rfl]
  rw [Nat.mod_eq_of_lt (by omega)]


theorem trimCopy_cons_space (t2 : Str) (hne : t2 ≠ [])
    (hh : ∀ c, t2.head? = some c → cppIsSpace c = false)
    (hl : ∀ c, t2.getLast? = some c → cppIsSpace c = false) :
    trimCopy (' ' :: t2) = t2 := by
  unfold trimCopy
  rw [show List.dropWhile cppIsSpace (' ' :: t2) = List.dropWhile cppIsSpace t2 by
    rw [List.dropWhile_cons, if_pos (by decide)]]
  rw [dropWhile_eq_self_of_head _ _ hh]
  rw [dropWhile_eq_self_of_head _ _ (by simpa using hl)]
  exact List.reverse_reverse t2

theorem getLast_concat (l : Str) (a : Char) : (l ++ [a]).getLast? = some a := by
  induction l with
  | nil => rfl
  | cons c r ih =>
    rw [List.cons_append, getLast_cons_ne_nil _ _ (by simp), ih]

theorem dropLast_concat_str (l : Str) (a : Char) : (l ++ [a]).dropLast = l :=
  List.dropLast_concat

theorem effectiveAddr_sp (t2 : Str) (s : MachState) (k : Nat)
    (hne : t2 ≠ [])
    (hnc : ∀ c ∈ t2, c ≠ ',')
    (hns : ∀ c ∈ t2, cppIsSpace c = false)
    (hp : parseImm ('#' :: t2) = .ok k) :
    effectiveAddr ⟨.Memory, "[SP, ".toList ++ ('#' :: t2) ++ "]".toList, 0⟩ s =
      .ok ((readSPv s + k) % W64) := by
  have hlast : ∀ c, t2.getLast? = some c → cppIsSpace c = false :=
    fun c hc => hns c (mem_of_getLast_some _ _ hc)
  have htr1 : trimCopy ('S' :: 'P' :: ',' :: ' ' :: '#' :: t2)
      = 'S' :: 'P' :: ',' :: ' ' :: '#' :: t2 := by
    apply trimCopy_eq_self
    · intro c hc
      cases hc
      decide
    · intro c hc
      rw [getLast_cons_ne_nil _ _ (by simp), getLast_cons_ne_nil _ _ (by simp),
          getLast_cons_ne_nil _ _ (by simp), getLast_cons_ne_nil _ _ (by simp),
          getLast_cons_ne_nil _ _ hne] at hc
      exact hlast c hc
  show effectiveAddr ⟨.Memory, '[' :: 'S' :: 'P' :: ',' :: ' ' :: '#' :: (t2 ++ [']']), 0⟩ s
      = .ok ((readSPv s + k) % W64)
  unfold effectiveAddr
  rw [if_neg (by
    push_neg
    refine ⟨?_, ?_, ?_⟩
    · show 2 ≤ ('[' :: 'S' :: 'P' :: ',' :: ' ' :: '#' :: (t2 ++ [']']) : Str).length
      simp
    · rfl
    · show ('[' :: 'S' :: 'P' :: ',' :: ' ' :: '#' :: (t2 ++ [']']) : Str).getLast? = some ']'
      rw [getLast_cons_ne_nil _ _ (by simp), getLast_cons_ne_nil _ _ (by simp),
          getLast_cons_ne_nil _ _ (by simp), getLast_cons_ne_nil _ _ (by simp),
          getLast_cons_ne_nil _ _ (by simp), getLast_cons_ne_nil _ _ (by simp)]
      exact getLast_concat t2 ']')]
  have e1 : (('[' :: 'S' :: 'P' :: ',' :: ' ' :: '#' :: (t2 ++ [']']) : Str).drop 1)
      = ('S' :: 'P' :: ',' :: ' ' :: '#' :: t2) ++ [']'] := by
    show ('S' :: 'P' :: ',' :: ' ' :: '#' :: (t2 ++ [']']) : Str)
        = ('S' :: 'P' :: ',' :: ' ' :: '#' :: t2) ++ [']']
    simp
  show effAddrInside (trimCopy
      ((('[' :: 'S' :: 'P' :: ',' :: ' ' :: '#' :: (t2 ++ [']']) : Str).drop 1).dropLast)) s
      = .ok ((readSPv s + k) % W64)
  rw [e1, dropLast_concat_str, htr1]
  unfold effAddrInside
  rw [show splitFirst ',' ('S' :: 'P' :: ',' :: ' ' :: '#' :: t2)
      = some (['S', 'P'], ' ' :: '#' :: t2) from rfl]
  show effAddrFrom (trimCopy ['S', 'P']) (trimCopy (' ' :: '#' :: t2)) s
      = .ok ((readSPv s + k) % W64)
  have htr2 : trimCopy (' ' :: '#' :: t2) = '#' :: t2 := by
    apply trimCopy_cons_space
    · simp
    · intro c hc
      cases hc
      decide
    · intro c hc
      rw [getLast_cons_ne_nil _ _ hne] at hc
      exact hlast c hc
  rw [htr2]
  unfold effAddrFrom
  rw [show regIndex (upperCopy (trimCopy ['S', 'P'])) = .ok 32 from rfl]
  show (if ('#' :: t2 : Str) = [] then Except.ok (readSPv s)
        else effAddrOffset (readSPv s) ('#' :: t2) s) = Except.ok ((readSPv s + k) % W64)
  rw [if_neg (by simp)]
  unfold effAddrOffset
  rw [show splitFirst ',' ('#' :: t2) = none from splitFirst_not_mem ',' ('#' :: t2) (by
    intro c hc
    rcases hc with _ | hc
    · decide
    · exact hnc c (by assumption))]
  have hidx : effAddrIdxVal ('#' :: t2) [] s = .ok k := by
    unfold effAddrIdxVal
    rw [if_pos (show (('#' = '#' : Bool) || cppIsDigit '#') = true from rfl)]
    exact hp
  show (match effAddrIdxVal ('#' :: t2) [] s with
        | Except.error e => Except.error e
        | Except.ok idxVal => Except.ok ((readSPv s + idxVal) % W64))
      = Except.ok ((readSPv s + k) % W64)
  rw [hidx]


theorem readXv_lt (s : MachState) (n : Nat) : readXv s n < W64 := by
  unfold readXv
  split
  · decide
  · exact Nat.mod_lt _ (by decide)

theorem sub64_sub (a b : Nat) (h1 : b ≤ a) (h2 : a < W64) : sub64 a b = a - b := by
  unfold sub64
  rw [Nat.mod_eq_of_lt (show b < W64 by omega)]
  rw [show a + (W64 - b) = W64 + (a - b) by omega]
  rw [Nat.add_mod_left]
  exact Nat.mod_eq_of_lt (by omega)

theorem stackWindowBad_false (base a w : Nat) (h1 : base ≤ a)
    (h2 : a + w ≤ base + 256) (h3 : base + 256 < W64) :
    stackWindowBad base a w = false := by
  unfold stackWindowBad
  simp only [Bool.or_eq_false_iff, decide_eq_false_iff_not, Nat.not_lt]
  refine ⟨h1, ?_⟩
  rw [Nat.mod_eq_of_lt (show a + w < W64 by omega),
      Nat.mod_eq_of_lt (show base + 256 < W64 by omega)]
  omega

/-- C7: for every 64-bit value in X5 and every decimal offset token whose
8-byte window `[SP+k, SP+k+8)` lies inside the stack window (with the stack
window itself below 2^64), executing `STR X5, [SP, #k]` and then
`LDR X6, [SP, #k]` ends with the original X5 value in X6: the little-endian
byte-wise store followed by the little-endian byte-wise load is the
identity. -/
theorem c7_str_ldr_roundtrip (t2 : Str) (s : MachState) (v : Nat)
    (hne : t2 ≠ []) (hd : ∀ c ∈ t2, cppIsDigit c = true)
    (hk : decVal t2 < W64)
    (hlen : s.mem.length = 256) (hx : s.x.length = 31)
    (hv : readXv s 5 = v)
    (hw1 : s.base ≤ (readSPv s + decVal t2) % W64)
    (hw2 : (readSPv s + decVal t2) % W64 + 8 ≤ s.base + 256)
    (hw3 : s.base + 256 < W64) :
    ∃ s1 s2, step (strLdrProg ('#' :: t2)) s 0 = .ok true s1 4 ∧
      step (strLdrProg ('#' :: t2)) s1 4 = .ok false s2 8 ∧ readXv s2 6 = v := by
  have hvlt : v < W64 := hv ▸ readXv_lt s 5
  have halt : (readSPv s + decVal t2) % W64 < W64 := Nat.mod_lt _ (by decide)
  have hplt : parseImm ('#' :: t2) = .ok (decVal t2) :=
    parseImm_hash t2 hne hd hk
  have hnc : ∀ c ∈ t2, c ≠ ',' := fun c hc => digit_ne c ',' (hd c hc) (by decide)
  have hns : ∀ c ∈ t2, cppIsSpace c = false := fun c hc => not_space_of_digit c (hd c hc)
  have hea : effectiveAddr ⟨.Memory, "[SP, ".toList ++ ('#' :: t2) ++ "]".toList, 0⟩ s =
      .ok ((readSPv s + decVal t2) % W64) :=
    effectiveAddr_sp t2 s (decVal t2) hne hnc hns hplt
  have hsub : sub64 ((readSPv s + decVal t2) % W64) s.base
      = (readSPv s + decVal t2) % W64 - s.base := sub64_sub _ _ hw1 halt
  obtain ⟨mem2, hst, hlen2, hget⟩ :=
    storeBytes_spec ((readSPv s + decVal t2) % W64 - s.base) v 8 0 s.mem hlen (by omega)
  have hw64 : stackWrite64 s.base s.mem ((readSPv s + decVal t2) % W64) v = .ok mem2 := by
    unfold stackWrite64
    rw [stackWindowBad_false _ _ _ hw1 hw2 hw3]
    show storeBytesLE (sub64 ((readSPv s + decVal t2) % W64) s.base) v 0 8 s.mem = .ok mem2
    rw [hsub]
    exact hst
  -- the STR instruction body
  have hstore : execStoreI (upperCopy "STR".toList)
      [⟨.Register, "X5".toList, 0⟩,
       ⟨.Memory, "[SP, ".toList ++ ('#' :: t2) ++ "]".toList, 0⟩] s
      = .ok { s with mem := mem2 } := by
    show ((match effectiveAddr ⟨.Memory, "[SP, ".toList ++ ('#' :: t2) ++ "]".toList, 0⟩ s with
          | Except.error e => Except.error (e, s)
          | Except.ok ea =>
            (match stackWrite64 s.base s.mem ea (readXv s 5) with
            | Except.error (e, memP) => Except.error (e, { s with mem := memP })
            | Except.ok m2 => Except.ok { s with mem := m2 } :
              Except (EmuErr × MachState) MachState) :
            Except (EmuErr × MachState) MachState))
        = Except.ok ({ s with mem := mem2 } : MachState)
    rw [hea, hv]
    show ((match stackWrite64 s.base s.mem ((readSPv s + decVal t2) % W64) v with
          | Except.error (e, memP) => Except.error (e, { s with mem := memP })
          | Except.ok m2 => Except.ok { s with mem := m2 } :
            Except (EmuErr × MachState) MachState))
        = Except.ok ({ s with mem := mem2 } : MachState)
    rw [hw64]
  have hexec1 : execInst (strLdrProg ('#' :: t2))
      ((strLdrProg ('#' :: t2)).code.getD 0 default) s 0
      = .ok (.next { s with mem := mem2 } 4) := by
    show ((match execStoreI (upperCopy "STR".toList)
            [⟨.Register, "X5".toList, 0⟩,
             ⟨.Memory, "[SP, ".toList ++ ('#' :: t2) ++ "]".toList, 0⟩] s with
          | Except.error es => Except.error es
          | Except.ok s2 => Except.ok (ExecOut.next s2 ((0 + 4) % W64)) :
            Except (EmuErr × MachState) ExecOut))
        = Except.ok (ExecOut.next ({ s with mem := mem2 } : MachState) 4)
    rw [hstore]
    rfl
  have hstep1 : step (strLdrProg ('#' :: t2)) s 0
      = .ok true { s with mem := mem2, pcReg := 4 } 4 := by
    rw [step_eq_dispatch (strLdrProg ('#' :: t2)) s 0 0 (by simp [strLdrProg])
      (by show (0 : Nat) ≠ 8; decide) (by rfl)]
    rw [hexec1]
    rfl
  -- the LDR instruction on the post-store state
  have hea1 : effectiveAddr ⟨.Memory, "[SP, ".toList ++ ('#' :: t2) ++ "]".toList, 0⟩
      { s with mem := mem2, pcReg := 4 }
      = .ok ((readSPv s + decVal t2) % W64) :=
    effectiveAddr_sp t2 { s with mem := mem2, pcReg := 4 } (decVal t2) hne hnc hns hplt
  have hbytes : ∀ t, t < 8 →
      mem2.getD (((readSPv s + decVal t2) % W64 - s.base) + t) 0
        = (v >>> (t * 8)) &&& 255 := by
    intro t ht
    rw [hget]
    rw [if_pos (by omega)]
    have hjt : ((readSPv s + decVal t2) % W64 - s.base + t)
        - ((readSPv s + decVal t2) % W64 - s.base) = t := by omega
    rw [hjt]
  have hread : stackRead64 s.base mem2 ((readSPv s + decVal t2) % W64) = .ok v := by
    unfold stackRead64
    rw [stackWindowBad_false _ _ _ hw1 hw2 hw3]
    show loadBytesLE (sub64 ((readSPv s + decVal t2) % W64) s.base) 0 8 0 mem2 = .ok v
    rw [hsub]
    exact loadBytes_spec _ v mem2 hvlt hbytes (by omega)
  have hload : execLoadI (upperCopy "LDR".toList)
      [⟨.Register, "X6".toList, 0⟩,
       ⟨.Memory, "[SP, ".toList ++ ('#' :: t2) ++ "]".toList, 0⟩]
      { s with mem := mem2, pcReg := 4 }
      = .ok (writeXv { s with mem := mem2, pcReg := 4 } 6 v) := by
    show ((match effectiveAddr ⟨.Memory, "[SP, ".toList ++ ('#' :: t2) ++ "]".toList, 0⟩
            { s with mem := mem2, pcReg := 4 } with
          | Except.error e => Except.error e
          | Except.ok ea =>
            (match stackRead64 s.base mem2 ea with
            | Except.error e => Except.error e
            | Except.ok v2 =>
              writeDest [⟨.Register, "X6".toList, 0⟩,
                ⟨.Memory, "[SP, ".toList ++ ('#' :: t2) ++ "]".toList, 0⟩]
                { s with mem := mem2, pcReg := 4 } 0 v2 :
              Except EmuErr MachState) :
            Except EmuErr MachState))
        = Except.ok (writeXv ({ s with mem := mem2, pcReg := 4 } : MachState) 6 v)
    rw [hea1]
    show ((match stackRead64 s.base mem2 ((readSPv s + decVal t2) % W64) with
          | Except.error e => Except.error e
          | Except.ok v2 =>
            writeDest [⟨.Register, "X6".toList, 0⟩,
              ⟨.Memory, "[SP, ".toList ++ ('#' :: t2) ++ "]".toList, 0⟩]
              { s with mem := mem2, pcReg := 4 } 0 v2 :
          Except EmuErr MachState))
        = Except.ok (writeXv ({ s with mem := mem2, pcReg := 4 } : MachState) 6 v)
    rw [hread]
    rfl
  have hexec2 : execInst (strLdrProg ('#' :: t2))
      ((strLdrProg ('#' :: t2)).code.getD 1 default) { s with mem := mem2, pcReg := 4 } 4
      = .ok (.next (writeXv { s with mem := mem2, pcReg := 4 } 6 v) 8) := by
    show ((match execLoadI (upperCopy "LDR".toList)
            [⟨.Register, "X6".toList, 0⟩,
             ⟨.Memory, "[SP, ".toList ++ ('#' :: t2) ++ "]".toList, 0⟩]
            { s with mem := mem2, pcReg := 4 } with
          | Except.error e => Except.error (e, ({ s with mem := mem2, pcReg := 4 } : MachState))
          | Except.ok s2 => Except.ok (ExecOut.next s2 ((4 + 4) % W64)) :
            Except (EmuErr × MachState) ExecOut))
        = Except.ok (ExecOut.next (writeXv ({ s with mem := mem2, pcReg := 4 } : MachState) 6 v) 8)
    rw [hload]
    rfl
  have hstep2 : step (strLdrProg ('#' :: t2)) { s with mem := mem2, pcReg := 4 } 4
      = .ok false { writeXv { s with mem := mem2, pcReg := 4 } 6 v with pcReg := 8 } 8 := by
    rw [step_eq_dispatch (strLdrProg ('#' :: t2)) { s with mem := mem2, pcReg := 4 } 4 1
      (by simp [strLdrProg]) (by show (4 : Nat) ≠ 8; decide) (by rfl)]
    rw [hexec2]
    rfl
  have hfinal : readXv { writeXv { s with mem := mem2, pcReg := 4 } 6 v with pcReg := 8 } 6
      = v := by
    show ((s.x.set 6 (v % W64)).getD 6 0) % W64 = v
    have h6 : (6 : Nat) < s.x.length := by rw [hx]; omega
    have hgd : (s.x.set 6 (v % W64)).getD 6 0 = v % W64 := by
      rw [List.getD_eq_getElem?_getD, List.getElem?_set_self h6]
      rfl
    rw [hgd, Nat.mod_mod_of_dvd v (dvd_refl W64), Nat.mod_eq_of_lt hvlt]
  exact ⟨{ s with mem := mem2, pcReg := 4 },
    { writeXv { s with mem := mem2, pcReg := 4 } 6 v with pcReg := 8 },
    hstep1, hstep2, hfinal⟩

theorem loadBytes_ok (o : Nat) :
    ∀ (n i acc : Nat) (mem : List Nat), o + i + n ≤ 256 →
      ∃ v, loadBytesLE o i n acc mem = .ok v := by
  intro n
  induction n with
  | zero => intro i acc mem h; exact ⟨acc, rfl⟩
  | succ n ih =>
    intro i acc mem h
    have hW : (257 : Nat) ≤ W64 := by decide
    have ho : (o + i) % W64 = o + i := Nat.mod_eq_of_lt (by omega)
    have h8 : stackR8 mem ((o + i) % W64) = .ok (mem.getD ((o + i) % W64) 0 % 256) := by
      unfold stackR8
      rw [if_neg ?hc]
      case hc =>
        rw [ho, Nat.mod_eq_of_lt (show o + i + 1 < W64 by omega)]
        omega
    obtain ⟨v, hv⟩ :=
      ih (i + 1) (acc ||| ((mem.getD ((o + i) % W64) 0 % 256) <<< (i * 8))) mem (by omega)
    refine ⟨v, ?_⟩
    show (match stackR8 mem ((o + i) % W64) with
          | Except.error e => Except.error e
          | Except.ok b => loadBytesLE o (i + 1) n (acc ||| (b <<< (i * 8))) mem) = Except.ok v
    rw [h8]
    exact hv

/-- C10: the immediate token `#-d` is parsed by parseImm with
two's-complement wraparound to `2^64 - d`; the effective address of
`[SP, #-d]` is `(SP + (2^64 - d)) mod 2^64`, which equals `SP - d` whenever
`d ≤ SP`; and an `LDR X0, [SP, #-d]` whose window lies within the stack
bounds succeeds. -/
theorem c10_negative_offset_wrap (tok : Str) (s : MachState)
    (hne : tok ≠ []) (hd : ∀ c ∈ tok, cppIsDigit c = true)
    (hk : decVal tok < W64) (hpos : 0 < decVal tok)
    (hle : decVal tok ≤ readSPv s)
    (hw1 : s.base ≤ readSPv s - decVal tok)
    (hw2 : (readSPv s - decVal tok) + 8 ≤ s.base + 256)
    (hw3 : s.base + 256 < W64) :
    parseImm ('#' :: '-' :: tok) = .ok (W64 - decVal tok) ∧
    effectiveAddr ⟨.Memory, "[SP, ".toList ++ ('#' :: '-' :: tok) ++ "]".toList, 0⟩ s
      = .ok (readSPv s - decVal tok) ∧
    ∃ s2, step (ldrSpProg ('#' :: '-' :: tok)) s 0 = .ok false s2 4 := by
  have hplt := parseImm_hash_neg tok hne hd hk hpos
  have hnc : ∀ c ∈ ('-' :: tok), c ≠ ',' := by
    intro c hc
    rcases List.mem_cons.mp hc with rfl | h
    · decide
    · exact digit_ne c ',' (hd c h) (by decide)
  have hns : ∀ c ∈ ('-' :: tok), cppIsSpace c = false := by
    intro c hc
    rcases List.mem_cons.mp hc with rfl | h
    · decide
    · exact not_space_of_digit c (hd c h)
  have hsp : readSPv s < W64 := by
    unfold readSPv
    exact Nat.mod_lt s.sp (by decide)
  have haddr : (readSPv s + (W64 - decVal tok)) % W64 = readSPv s - decVal tok := by
    rw [show readSPv s + (W64 - decVal tok) = (readSPv s - decVal tok) + W64 by omega]
    rw [Nat.add_mod_right]
    exact Nat.mod_eq_of_lt (by omega)
  have hea : effectiveAddr ⟨.Memory, "[SP, ".toList ++ ('#' :: '-' :: tok) ++ "]".toList, 0⟩ s
      = .ok (readSPv s - decVal tok) := by
    have := effectiveAddr_sp ('-' :: tok) s (W64 - decVal tok) (by simp) hnc hns hplt
    rw [haddr] at this
    exact this
  refine ⟨hplt, hea, ?_⟩
  have hsub : sub64 (readSPv s - decVal tok) s.base = (readSPv s - decVal tok) - s.base :=
    sub64_sub _ _ hw1 (by omega)
  obtain ⟨v, hlv⟩ := loadBytes_ok ((readSPv s - decVal tok) - s.base) 8 0 0 s.mem (by omega)
  have hread : stackRead64 s.base s.mem (readSPv s - decVal tok) = .ok v := by
    unfold stackRead64
    rw [stackWindowBad_false _ _ _ hw1 hw2 hw3]
    show loadBytesLE (sub64 (readSPv s - decVal tok) s.base) 0 8 0 s.mem = .ok v
    rw [hsub]
    exact hlv
  have hload : execLoadI (upperCopy "LDR".toList)
      [⟨.Register, "X0".toList, 0⟩,
       ⟨.Memory, "[SP, ".toList ++ ('#' :: '-' :: tok) ++ "]".toList, 0⟩] s
      = .ok (writeXv s 0 v) := by
    show ((match effectiveAddr ⟨.Memory, "[SP, ".toList ++ ('#' :: '-' :: tok) ++ "]".toList, 0⟩
            s with
          | Except.error e => Except.error e
          | Except.ok ea =>
            (match stackRead64 s.base s.mem ea with
            | Except.error e => Except.error e
            | Except.ok v2 =>
              writeDest [⟨.Register, "X0".toList, 0⟩,
                ⟨.Memory, "[SP, ".toList ++ ('#' :: '-' :: tok) ++ "]".toList, 0⟩] s 0 v2 :
              Except EmuErr MachState) :
            Except EmuErr MachState))
        = Except.ok (writeXv s 0 v)
    rw [hea]
    show ((match stackRead64 s.base s.mem (readSPv s - decVal tok) with
          | Except.error e => Except.error e
          | Except.ok v2 =>
            writeDest [⟨.Register, "X0".toList, 0⟩,
              ⟨.Memory, "[SP, ".toList ++ ('#' :: '-' :: tok) ++ "]".toList, 0⟩] s 0 v2 :
          Except EmuErr MachState))
        = Except.ok (writeXv s 0 v)
    rw [hread]
    rfl
  have hexec : execInst (ldrSpProg ('#' :: '-' :: tok))
      ((ldrSpProg ('#' :: '-' :: tok)).code.getD 0 default) s 0
      = .ok (.next (writeXv s 0 v) 4) := by
    show ((match execLoadI (upperCopy "LDR".toList)
            [⟨.Register, "X0".toList, 0⟩,
             ⟨.Memory, "[SP, ".toList ++ ('#' :: '-' :: tok) ++ "]".toList, 0⟩] s with
          | Except.error e => Except.error (e, s)
          | Except.ok s2 => Except.ok (ExecOut.next s2 ((0 + 4) % W64)) :
            Except (EmuErr × MachState) ExecOut))
        = Except.ok (ExecOut.next (writeXv s 0 v) 4)
    rw [hload]
    rfl
  refine ⟨setPC (writeXv s 0 v) 4, ?_⟩
  rw [step_eq_dispatch (ldrSpProg ('#' :: '-' :: tok)) s 0 0
    (by simp [ldrSpProg]) (by show (0 : Nat) ≠ 4; decide) (by rfl)]
  rw [hexec]
  rfl

theorem lookupAssoc_setAssoc_self {α : Type} [DecidableEq α] (m : List (α × Nat))
    (k : α) (v : Nat) : lookupAssoc (setAssoc m k v) k = some v := by
  unfold setAssoc
  split
  case isTrue h =>
    induction m with
    | nil => simp at h
    | cons p m ih =>
      unfold lookupAssoc
      rw [List.map_cons]
      by_cases hp : p.1 = k
      · rw [if_pos hp]
        rw [List.find?_cons_of_pos _ (by simp)]
        rfl
      · rw [if_neg hp]
        rw [List.find?_cons_of_neg _ (by simp [hp])]
        have hm : m.any (fun p => decide (p.1 = k)) = true := by
          simp at h
          rcases h with h | h
          · exact absurd h hp
          · simpa using h
        exact ih hm
  case isFalse h =>
    induction m with
    | nil =>
      unfold lookupAssoc
      rw [List.nil_append, List.find?_cons_of_pos _ (by simp)]
      rfl
    | cons p m ih =>
      have hp : ¬ (p.1 = k) := by
        intro hc
        exact h (by simp [List.any_cons, hc])
      have hm : ¬ (m.any (fun p => decide (p.1 = k)) = true) := by
        intro hc
        exact h (by simp [List.any_cons, hc])
      unfold lookupAssoc
      rw [List.cons_append, List.find?_cons_of_neg _ (by simp [hp])]
      exact ih hm

theorem lookupAssoc_setAssoc_ne {α : Type} [DecidableEq α] (m : List (α × Nat))
    (k nm : α) (v : Nat) (hne : nm ≠ k) :
    lookupAssoc (setAssoc m k v) nm = lookupAssoc m nm := by
  unfold setAssoc
  split
  case isTrue h =>
    clear h
    induction m with
    | nil => rfl
    | cons p m ih =>
      unfold lookupAssoc
      rw [List.map_cons]
      by_cases hp : p.1 = k
      · rw [if_pos hp]
        rw [List.find?_cons_of_neg _ (by simp [Ne.symm hne]),
            List.find?_cons_of_neg _ (by simp [hp ▸ Ne.symm hne])]
        exact ih
      · rw [if_neg hp]
        by_cases hq : p.1 = nm
        · rw [List.find?_cons_of_pos _ (by simp [hq]),
              List.find?_cons_of_pos _ (by simp [hq])]
        · rw [List.find?_cons_of_neg _ (by simp [hq]),
              List.find?_cons_of_neg _ (by simp [hq])]
          exact ih
  case isFalse h =>
    clear h
    induction m with
    | nil =>
      unfold lookupAssoc
      rw [List.nil_append, List.find?_cons_of_neg _ (by simp [Ne.symm hne])]
    | cons p m ih =>
      unfold lookupAssoc
      rw [List.cons_append]
      by_cases hq : p.1 = nm
      · rw [List.find?_cons_of_pos _ (by simp [hq]),
            List.find?_cons_of_pos _ (by simp [hq])]
      · rw [List.find?_cons_of_neg _ (by simp [hq]),
            List.find?_cons_of_neg _ (by simp [hq])]
        exact ih

theorem lookupAssoc_setAssoc_cases {α : Type} [DecidableEq α] (m : List (α × Nat))
    (k nm : α) (v a : Nat) (h : lookupAssoc (setAssoc m k v) nm = some a) :
    (nm = k ∧ a = v) ∨ lookupAssoc m nm = some a := by
  by_cases hnm : nm = k
  · subst hnm
    rw [lookupAssoc_setAssoc_self] at h
    exact Or.inl ⟨rfl, (Option.some_inj.mp h).symm⟩
  · rw [lookupAssoc_setAssoc_ne m k nm v hnm] at h
    exact Or.inr h

theorem collectGo_lookup (fuel : Nat) :
    ∀ (s : Str) (addr : Nat) (out : List (Str × Nat)) (nm : Str) (a : Nat),
      lookupAssoc (collectGo fuel s addr out).1 nm = some a →
      a = addr ∨ lookupAssoc out nm = some a := by
  induction fuel with
  | zero => intro s addr out nm a h; exact Or.inr h
  | succ fuel ih =>
    intro s addr out nm a h
    unfold collectGo at h
    cases hsp : splitFirst ':' s with
    | none =>
      rw [hsp] at h
      exact Or.inr h
    | some pr =>
      obtain ⟨l, r⟩ := pr
      rw [hsp] at h
      simp only [] at h
      split at h
      · exact Or.inr h
      · split at h
        · exact Or.inr h
        · split at h
          · rcases lookupAssoc_setAssoc_cases _ _ _ _ _ h with ⟨-, rfl⟩ | h2
            · exact Or.inl rfl
            · exact Or.inr h2
          · rcases ih _ addr _ nm a h with h1 | h2
            · exact Or.inl h1
            · rcases lookupAssoc_setAssoc_cases _ _ _ _ _ h2 with ⟨-, rfl⟩ | h3
              · exact Or.inl rfl
              · exact Or.inr h3

theorem collect_lookup (line : Str) (addr : Nat) (out out2 : List (Str × Nat)) (rest : Str)
    (hcl : collectLeadingLabels line addr out = (out2, rest))
    (nm : Str) (a : Nat) (h : lookupAssoc out2 nm = some a) :
    a = addr ∨ lookupAssoc out nm = some a := by
  have h2 : (collectLeadingLabels line addr out).1 = out2 := by rw [hcl]
  unfold collectLeadingLabels at h2
  exact collectGo_lookup _ _ _ _ nm a (h2 ▸ h)

theorem buildStep_inv (st st2 : BuildSt) (line : Str)
    (h : buildStep st line = .ok st2) (hI : BuildInv st) :
    BuildInv st2 ∧ st.code.length ≤ st2.code.length := by
  obtain ⟨hI1, hI2, hI3, hI4⟩ := hI
  unfold buildStep at h
  simp only [] at h
  rcases hcl : collectLeadingLabels line ((st.instrIndex * 4) % W64) st.labels
    with ⟨labels2, rest⟩
  rw [hcl] at h
  simp only [] at h
  have hkeep : BuildInv { st with labels := labels2 } := by
    refine ⟨hI1, hI2, hI3, ?_⟩
    intro nm a hn
    rcases collect_lookup line _ st.labels labels2 rest hcl nm a hn with rfl | hold
    · exact ⟨st.code.length, le_refl _, by rw [hI1]⟩
    · exact hI4 nm a hold
  split at h
  · injection h with h2
    subst h2
    exact ⟨hkeep, le_refl _⟩
  · split at h
    · injection h with h2
      subst h2
      exact ⟨hkeep, le_refl _⟩
    · cases hps : parseLine (trimCopy rest) with
      | error e => rw [hps] at h; cases h
      | ok od =>
        rw [hps] at h
        cases od with
        | none =>
          injection h with h2
          subst h2
          exact ⟨hkeep, le_refl _⟩
        | some d =>
          injection h with h2
          subst h2
          have hlen : (st.code ++ [(⟨(st.instrIndex * 4) % W64, st.instrIndex + 1, d⟩ :
              AsmInst)]).length = st.code.length + 1 := by
            rw [List.length_append]
            rfl
          refine ⟨⟨?_, ?_, ?_, ?_⟩, ?_⟩
          · show st.instrIndex + 1 = _
            rw [hlen, hI1]
          · intro i hi
            rw [hlen] at hi
            by_cases hilt : i < st.code.length
            · have hg : (st.code ++ [(⟨(st.instrIndex * 4) % W64, st.instrIndex + 1, d⟩ :
                  AsmInst)]).getD i default = st.code.getD i default := by
                rw [List.getD_eq_getElem?_getD, List.getElem?_append_left hilt,
                    List.getD_eq_getElem?_getD]
              rw [hg]
              exact hI2 i hilt
            · have hieq : i = st.code.length := by omega
              subst hieq
              have hg : (st.code ++ [(⟨(st.instrIndex * 4) % W64, st.instrIndex + 1, d⟩ :
                  AsmInst)]).getD st.code.length default
                  = ⟨(st.instrIndex * 4) % W64, st.instrIndex + 1, d⟩ := by
                rw [List.getD_eq_getElem?_getD, List.getElem?_append_right (le_refl _)]
                simp
              rw [hg, hI1]
              exact ⟨rfl, rfl⟩
          · intro hb i hi
            rw [hlen] at hb hi
            have hlen4 : 4 * st.code.length < W64 := by omega
            by_cases hilt : i < st.code.length
            · have hi4 : i * 4 < st.code.length * 4 :=
                (Nat.mul_lt_mul_right (by decide)).mpr hilt
              have hkey : (i * 4) % W64 ≠ (st.instrIndex * 4) % W64 := by
                rw [hI1, Nat.mod_eq_of_lt (by omega), Nat.mod_eq_of_lt (by omega)]
                omega
              show lookupAssoc (setAssoc st.addr2idx ((st.instrIndex * 4) % W64)
                st.code.length) ((i * 4) % W64) = some i
              rw [lookupAssoc_setAssoc_ne _ _ _ _ hkey]
              exact hI3 hlen4 i hilt
            · have hieq : i = st.code.length := by omega
              subst hieq
              show lookupAssoc (setAssoc st.addr2idx ((st.instrIndex * 4) % W64)
                st.code.length) ((st.code.length * 4) % W64) = some st.code.length
              rw [← hI1]
              exact lookupAssoc_setAssoc_self _ _ _
          · intro nm a hn
            rw [hlen]
            rcases collect_lookup line _ st.labels labels2 rest hcl nm a hn with rfl | hold
            · exact ⟨st.code.length, by omega, by rw [hI1]⟩
            · obtain ⟨k, hk, ha⟩ := hI4 nm a hold
              exact ⟨k, by omega, ha⟩
          · show st.code.length ≤ _
            rw [hlen]
            omega

theorem buildGo_inv : ∀ (lines : List Str) (st st2 : BuildSt),
    buildGo st lines = .ok st2 → BuildInv st → BuildInv st2 := by
  intro lines
  induction lines with
  | nil =>
    intro st st2 h hI
    injection h with h2
    subst h2
    exact hI
  | cons l ls ih =>
    intro st st2 h hI
    unfold buildGo at h
    cases hb : buildStep st l with
    | error e => rw [hb] at h; cases h
    | ok stm =>
      rw [hb] at h
      exact ih stm st2 h (buildStep_inv st stm l hb hI).1

theorem collectKeysGo_succ (fuel : Nat) (s l r : Str)
    (hsp : splitFirst ':' s = some (l, r))
    (h1 : ¬ trimCopy l = [])
    (h2 : ¬ ((trimCopy l).any (fun c => c = ' ' || c = '\t') = true)) :
    collectKeysGo (fuel + 1) s =
      if trimCopy r = [] then [upperCopy (trimCopy l)]
      else upperCopy (trimCopy l) :: collectKeysGo fuel (trimCopy r) := by
  rw [collectKeysGo]
  rw [hsp]
  simp only []
  rw [if_neg h1, if_neg h2]

theorem collectGo_lookup_mem (fuel : Nat) :
    ∀ (s : Str) (addr : Nat) (out : List (Str × Nat)) (nm : Str) (a : Nat),
      lookupAssoc (collectGo fuel s addr out).1 nm = some a →
      (a = addr ∧ nm ∈ collectKeysGo fuel s) ∨ lookupAssoc out nm = some a := by
  induction fuel with
  | zero => intro s addr out nm a h; exact Or.inr h
  | succ fuel ih =>
    intro s addr out nm a h
    unfold collectGo at h
    cases hsp : splitFirst ':' s with
    | none =>
      rw [hsp] at h
      exact Or.inr h
    | some pr =>
      obtain ⟨l, r⟩ := pr
      rw [hsp] at h
      simp only [] at h
      by_cases h1 : trimCopy l = []
      · rw [if_pos h1] at h
        exact Or.inr h
      · rw [if_neg h1] at h
        by_cases h2 : ((trimCopy l).any (fun c => c = ' ' || c = '\t') = true)
        · rw [if_pos h2] at h
          exact Or.inr h
        · rw [if_neg h2] at h
          by_cases h3 : trimCopy r = []
          · rw [if_pos h3] at h
            rcases lookupAssoc_setAssoc_cases _ _ _ _ _ h with ⟨hnm, rfl⟩ | hold
            · refine Or.inl ⟨rfl, ?_⟩
              rw [collectKeysGo_succ fuel s l r hsp h1 h2, if_pos h3, hnm]
              exact List.mem_singleton_self _
            · exact Or.inr hold
          · rw [if_neg h3] at h
            rcases ih (trimCopy r) addr _ nm a h with ⟨ha, hmem⟩ | hold
            · refine Or.inl ⟨ha, ?_⟩
              rw [collectKeysGo_succ fuel s l r hsp h1 h2, if_neg h3]
              exact List.mem_cons_of_mem _ hmem
            · rcases lookupAssoc_setAssoc_cases _ _ _ _ _ hold with ⟨hnm, rfl⟩ | hold2
              · refine Or.inl ⟨rfl, ?_⟩
                rw [collectKeysGo_succ fuel s l r hsp h1 h2, if_neg h3, hnm]
                exact List.mem_cons_self _ _
              · exact Or.inr hold2

theorem collect_lookup_mem (line : Str) (addr : Nat) (out out2 : List (Str × Nat))
    (rest : Str) (hcl : collectLeadingLabels line addr out = (out2, rest))
    (nm : Str) (a : Nat) (h : lookupAssoc out2 nm = some a) :
    (a = addr ∧ nm ∈ lineLabels line) ∨ lookupAssoc out nm = some a := by
  have h2 : (collectLeadingLabels line addr out).1 = out2 := by rw [hcl]
  unfold collectLeadingLabels at h2
  exact collectGo_lookup_mem _ _ _ _ nm a (h2 ▸ h)

theorem buildGo_snoc : ∀ (xs : List Str) (l : Str) (st st1 stm : BuildSt),
    buildGo st xs = .ok st1 → buildStep st1 l = .ok stm →
    buildGo st (xs ++ [l]) = .ok stm := by
  intro xs
  induction xs with
  | nil =>
    intro l st st1 stm h1 h2
    injection h1 with h
    subst h
    show buildGo st [l] = .ok stm
    have he : buildGo st [l]
        = (match buildStep st l with
           | .error e => .error e
           | .ok st2 => buildGo st2 []) := rfl
    rw [he, h2]
    rfl
  | cons x xs ih =>
    intro l st st1 stm h1 h2
    have hstep : ∃ st2, buildStep st x = .ok st2 ∧ buildGo st2 xs = .ok st1 := by
      unfold buildGo at h1
      cases hb : buildStep st x with
      | error e => rw [hb] at h1; cases h1
      | ok st2 => rw [hb] at h1; exact ⟨st2, rfl, h1⟩
    obtain ⟨st2, hb, hx⟩ := hstep
    show buildGo st (x :: (xs ++ [l])) = .ok stm
    have he : buildGo st (x :: (xs ++ [l]))
        = (match buildStep st x with
           | .error e => .error e
           | .ok s2 => buildGo s2 (xs ++ [l])) := rfl
    rw [he, hb]
    exact ih l st2 st1 stm hx h2

theorem buildStep_labels (st st2 : BuildSt) (line : Str)
    (h : buildStep st line = .ok st2) :
    ∀ nm a, lookupAssoc st2.labels nm = some a →
      (a = (st.instrIndex * 4) % W64 ∧ nm ∈ lineLabels line) ∨
      lookupAssoc st.labels nm = some a := by
  unfold buildStep at h
  simp only [] at h
  rcases hcl : collectLeadingLabels line ((st.instrIndex * 4) % W64) st.labels
    with ⟨labels2, rest⟩
  rw [hcl] at h
  simp only [] at h
  intro nm a hn
  split at h
  · injection h with h2
    subst h2
    exact collect_lookup_mem line _ _ _ _ hcl nm a hn
  · split at h
    · injection h with h2
      subst h2
      exact collect_lookup_mem line _ _ _ _ hcl nm a hn
    · cases hps : parseLine (trimCopy rest) with
      | error e => rw [hps] at h; cases h
      | ok od =>
        rw [hps] at h
        cases od with
        | none =>
          injection h with h2
          subst h2
          exact collect_lookup_mem line _ _ _ _ hcl nm a hn
        | some d =>
          injection h with h2
          subst h2
          exact collect_lookup_mem line _ _ _ _ hcl nm a hn

theorem buildGo_attr : ∀ (todo done : List Str) (st st2 : BuildSt),
    buildGo ⟨[], [], [], 0⟩ done = .ok st →
    buildGo st todo = .ok st2 →
    BuildInv st →
    (∀ nm a, lookupAssoc st.labels nm = some a →
      ∃ pre line post st1, done = pre ++ line :: post ∧
        buildGo ⟨[], [], [], 0⟩ pre = .ok st1 ∧
        nm ∈ lineLabels line ∧
        st1.code.length ≤ st.code.length ∧
        a = (st1.code.length * 4) % W64) →
    BuildInv st2 ∧
    (∀ nm a, lookupAssoc st2.labels nm = some a →
      ∃ pre line post st1, done ++ todo = pre ++ line :: post ∧
        buildGo ⟨[], [], [], 0⟩ pre = .ok st1 ∧
        nm ∈ lineLabels line ∧
        st1.code.length ≤ st2.code.length ∧
        a = (st1.code.length * 4) % W64) := by
  intro todo
  induction todo with
  | nil =>
    intro done st st2 h0 h hI hA
    injection h with h2
    subst h2
    rw [List.append_nil]
    exact ⟨hI, hA⟩
  | cons l ls ih =>
    intro done st st2 h0 h hI hA
    unfold buildGo at h
    cases hb : buildStep st l with
    | error e => rw [hb] at h; cases h
    | ok stm =>
      rw [hb] at h
      have h0m : buildGo ⟨[], [], [], 0⟩ (done ++ [l]) = .ok stm :=
        buildGo_snoc done l _ _ _ h0 hb
      have hIm := (buildStep_inv st stm l hb hI).1
      have hmono := (buildStep_inv st stm l hb hI).2
      have hAm : ∀ nm a, lookupAssoc stm.labels nm = some a →
          ∃ pre line post st1, done ++ [l] = pre ++ line :: post ∧
            buildGo ⟨[], [], [], 0⟩ pre = .ok st1 ∧
            nm ∈ lineLabels line ∧
            st1.code.length ≤ stm.code.length ∧
            a = (st1.code.length * 4) % W64 := by
        intro nm a hn
        rcases buildStep_labels st stm l hb nm a hn with ⟨ha, hmem⟩ | hold
        · refine ⟨done, l, [], st, rfl, h0, hmem, hmono, ?_⟩
          rw [ha, hI.1]
        · obtain ⟨pre, line, post, st1, heq, hb1, hm, hle, ha⟩ := hA nm a hold
          refine ⟨pre, line, post ++ [l], st1, ?_, hb1, hm, le_trans hle hmono, ha⟩
          rw [heq, List.append_assoc]
          rfl
      have hrest := ih (done ++ [l]) stm st2 h0m h hIm hAm
      rw [List.append_assoc, List.singleton_append] at hrest
      exact hrest

/-- C5: every program built by `buildProgram` (buildFileProgram of
executor.cpp, here for programs whose total size stays below 2^64) has its
i-th emitted instruction at address exactly `i * 4` with 1-based sequence
index `i + 1`, and the address-to-index map sends each instruction address
to that instruction's position.  Every recorded label is attributed to a
source line: the input splits as `pre ++ line :: post` where the label is
among `line`'s leading `label:` prefixes, the builder had emitted exactly
`st1.code.length` instructions before reaching that line, and the label's
address is exactly `st1.code.length * 4` — the address of the next
instruction emitted after the label prefix (that instruction, if one
exists, carries this very address; when none follows, the count equals the
final instruction count, so the address is the end sentinel) — never any
other address.  A label recorded on several lines keeps the last
recording, so the attribution names one of its occurrences. -/
theorem c5_build_invariants (lines : List Str) (prog : AsmProgram)
    (h : buildProgram lines = .ok prog)
    (hsz : prog.code.length * 4 < W64) :
    (∀ i, i < prog.code.length →
        (prog.code.getD i default).addr = i * 4 ∧
        (prog.code.getD i default).instrIndex = i + 1) ∧
    (∀ i, i < prog.code.length → lookupAssoc prog.addr2idx (i * 4) = some i) ∧
    (∀ nm a, lookupAssoc prog.labels nm = some a →
        ∃ pre line post st1, lines = pre ++ line :: post ∧
          buildGo ⟨[], [], [], 0⟩ pre = .ok st1 ∧
          nm ∈ lineLabels line ∧
          st1.code.length ≤ prog.code.length ∧
          a = st1.code.length * 4 ∧
          (st1.code.length < prog.code.length →
            (prog.code.getD st1.code.length default).addr = a)) := by
  unfold buildProgram at h
  cases hb : buildGo ⟨[], [], [], 0⟩ lines with
  | error e => rw [hb] at h; cases h
  | ok st =>
    rw [hb] at h
    injection h with h2
    subst h2
    have hinit : BuildInv ⟨[], [], [], 0⟩ := by
      refine ⟨rfl, ?_, ?_, ?_⟩
      · intro i hi
        cases hi
      · intro hb2 i hi
        cases hi
      · intro nm a hn
        cases hn
    have hAinit : ∀ nm a, lookupAssoc (⟨[], [], [], 0⟩ : BuildSt).labels nm = some a →
        ∃ pre line post st1, ([] : List Str) = pre ++ line :: post ∧
          buildGo ⟨[], [], [], 0⟩ pre = .ok st1 ∧
          nm ∈ lineLabels line ∧
          st1.code.length ≤ (⟨[], [], [], 0⟩ : BuildSt).code.length ∧
          a = (st1.code.length * 4) % W64 := by
      intro nm a hn
      cases hn
    obtain ⟨hIfin, hAttr⟩ :=
      buildGo_attr lines [] ⟨[], [], [], 0⟩ st rfl hb hinit hAinit
    obtain ⟨-, hI2, hI3, -⟩ := hIfin
    have hsz2 : st.code.length * 4 < W64 := hsz
    have hmod : ∀ i, i ≤ st.code.length → (i * 4) % W64 = i * 4 := by
      intro i hi
      exact Nat.mod_eq_of_lt (by
        have := Nat.mul_le_mul_right 4 hi
        omega)
    refine ⟨?_, ?_, ?_⟩
    · intro i hi
      have := hI2 i hi
      rw [hmod i (le_of_lt hi)] at this
      exact this
    · intro i hi
      have := hI3 (by omega) i hi
      rw [hmod i (le_of_lt hi)] at this
      exact this
    · intro nm a hn
      obtain ⟨pre, line, post, st1, heq, hb1, hm, hle, ha⟩ := hAttr nm a hn
      rw [List.nil_append] at heq
      rw [hmod st1.code.length hle] at ha
      refine ⟨pre, line, post, st1, heq, hb1, hm, hle, ha, ?_⟩
      intro hlt
      have := (hI2 st1.code.length hlt).1
      rw [hmod st1.code.length hle] at this
      rw [this, ha]

theorem c5_build_invariants_witness :
    ((∀ i, i < loopProg.code.length →
        (loopProg.code.getD i default).addr = i * 4 ∧
        (loopProg.code.getD i default).instrIndex = i + 1) ∧
     (∀ i, i < loopProg.code.length → lookupAssoc loopProg.addr2idx (i * 4) = some i) ∧
     (∀ nm a, lookupAssoc loopProg.labels nm = some a →
        ∃ pre line post st1, loopLines = pre ++ line :: post ∧
          buildGo ⟨[], [], [], 0⟩ pre = .ok st1 ∧
          nm ∈ lineLabels line ∧
          st1.code.length ≤ loopProg.code.length ∧
          a = st1.code.length * 4 ∧
          (st1.code.length < loopProg.code.length →
            (loopProg.code.getD st1.code.length default).addr = a))) ∧
    buildProgram loopLines = .ok loopProg ∧
    lookupAssoc loopProg.labels "LOOP".toList = some 0 :=
  ⟨c5_build_invariants loopLines loopProg (by decide) (by decide), by decide, by decide⟩

theorem c7_str_ldr_roundtrip_witness :
    ∃ s1 s2, step (strLdrProg ('#' :: "8".toList))
        { initState with x := (List.replicate 31 0).set 5 81985529216486895 } 0
        = .ok true s1 4 ∧
      step (strLdrProg ('#' :: "8".toList)) s1 4 = .ok false s2 8 ∧
      readXv s2 6 = 81985529216486895 :=
  c7_str_ldr_roundtrip "8".toList
    { initState with x := (List.replicate 31 0).set 5 81985529216486895 }
    81985529216486895 (by decide) (by decide) (by decide) (by decide) (by decide)
    (by decide) (by decide) (by decide) (by decide)

theorem c10_negative_offset_wrap_witness :
    parseImm ('#' :: '-' :: "8".toList) = .ok 18446744073709551608 ∧
    effectiveAddr ⟨.Memory, "[SP, ".toList ++ ('#' :: '-' :: "8".toList) ++ "]".toList, 0⟩
      { initState with sp := 16 } = .ok 8 ∧
    ∃ s2, step (ldrSpProg ('#' :: '-' :: "8".toList)) { initState with sp := 16 } 0
      = .ok false s2 4 :=
  c10_negative_offset_wrap "8".toList { initState with sp := 16 } (by decide) (by decide)
    (by decide) (by decide) (by decide) (by decide) (by decide) (by decide)

end ARM64Emu
